import Mathlib

/-!
Verification of the rvutils graph engine.

This file gives a shallow embedding of the connected-component graph
engine (`graph.c`, `graph.h`) and of the maximal-clique enumerator
(`clique.c`) of the rvutils repository, and proves or refutes the
specified properties against it.

Modelling conventions:

* A node identifier is a NUL-terminated byte string in the source.
  `graph.c` uses identifiers only through equality (`strcmp(...) == 0`),
  through the three-way byte comparison `strcmp` and through the hash
  `jenkins_hash`.  We therefore model identifiers as an arbitrary type
  `α` with decidable equality, together with a comparison function and
  a hash function carried in a configuration record.
* `jenkins_hash.c` is not among the sources (only `jenkins_hash.h` and
  the build rules mention it).  The hash function is modelled from the
  spec: an arbitrary function from identifiers to 32-bit values.
* Machine integers (`uint32_t` counters, masks) are modelled as `Nat`
  with explicit reduction mod `2^32` where overflow or saturation
  matters (`node_count`, `resize_threshold`, hash values).
* Allocation is modelled by two oracles: `mallocOk` decides the outcome
  of each plain `malloc`/`realloc` call (components, hash buckets), and
  `obstackOk` the outcome of each obstack (arena) allocation.  A failed
  plain `malloc` returns NULL and the source recovers; a failed obstack
  allocation goes through `xmalloc`, which calls `error(2, ...)` and
  `abort()`, terminating the process.  The model therefore returns
  `none` ("the process died") for a failed obstack allocation, and the
  sentinel `-1` paths of the source for failed `malloc`s.
* C pointers are modelled by stable indices: nodes by their index in the
  node arena (allocation order), components by a fresh counter value.
-/

namespace Rvutils

/-- 2^32 - 1, the C constant `UINT32_MAX`. -/
def UINT32_MAX : Nat := 4294967295

/-- Reduce a natural number mod 2^32, the behaviour of a `uint32_t` store. -/
def wrap32 (n : Nat) : Nat := n % 4294967296

/-- Flag `GRAPH_UNDIRECTED` (0x01): orient all edges canonically. -/
def GRAPH_UNDIRECTED : Nat := 1

/-- Flag `GRAPH_NOPARALLEL` (0x02): disallow adding the same edge twice. -/
def GRAPH_NOPARALLEL : Nat := 2

/-- Flag `GRAPH_NOLOOP` (0x04): disallow self-edges. -/
def GRAPH_NOLOOP : Nat := 4

/-- Flag `GRAPH_DUAL` (0x08): add two copies of each edge. -/
def GRAPH_DUAL : Nat := 8

/-- Test a flag bit, the C expression `flags & f`. -/
def hasFlag (flags f : Nat) : Prop := flags &&& f ≠ 0

instance (flags f : Nat) : Decidable (hasFlag flags f) := by
  unfold hasFlag; infer_instance

/-- The errno values the engine can set. -/
inductive Errno where
  | einval : Errno
  | enomem : Errno
deriving DecidableEq

/-- Configuration of a model run: the identifier hash and comparison, and
the behaviour of the external allocator.

`hash` is modelled from the spec: it stands for `jenkins_hashlittle`
(from `jenkins_hash.c`, which is not among the sources); the spec
constrains it only to be a function of the identifier bytes producing a
32-bit value.  `cmp` models `strcmp`.  `mallocOk i` tells whether the
`i`-th plain `malloc`/`realloc` call of the run succeeds, `obstackOk i`
whether the `i`-th arena (obstack) allocation succeeds. -/
structure Cfg (α : Type) where
  hash : α → Nat
  cmp : α → α → Ordering
  mallocOk : Nat → Bool
  obstackOk : Nat → Bool

/-- A `struct Node`: identifier, cached hash value, the singly-linked
list of outgoing edges (head insertion, so most recent first; each entry
is the target's arena index, modelling `struct Edge`), the two degree
counters, and the owning component (`NULL` = `none`). -/
structure NodeRec (α : Type) where
  ident : α
  hv : Nat
  outEdges : List Nat
  outDegree : Nat
  inDegree : Nat
  comp : Option Nat

/-- A `struct Component`: the tail queue of member node indices
(insertion at the tail) and the two counters. -/
structure CompRec where
  nodes : List Nat
  nodeCount : Nat
  edgeCount : Nat

/-- A `struct Graph`.  `arena` is the node obstack (index = allocation
order); `buckets` is the hash table, each bucket a head-inserted singly
linked list of node indices; `comps` is the tail queue of components,
keyed by an ever-increasing identity so that freed components are never
confused with new ones; `mIdx`/`oIdx` count the `malloc` and obstack
allocations performed so far (they index the two oracles). -/
structure Graph (α : Type) where
  arena : List (NodeRec α)
  buckets : List (List Nat)
  hashmask : Nat
  nodeCount : Nat
  resizeThreshold : Nat
  comps : List (Nat × CompRec)
  nextCompId : Nat
  flags : Nat
  mIdx : Nat
  oIdx : Nat

variable {α : Type} [DecidableEq α]

/-- Read a node record, `arena` being the node obstack. -/
def nodeAt (g : Graph α) (nid : Nat) : Option (NodeRec α) := g.arena[nid]?

/-- The component field of a node, `n->comp`. -/
def compOf (g : Graph α) (nid : Nat) : Option Nat := (nodeAt g nid).bind (·.comp)

/-- Apply `f` to the record at index `i`, leaving the list unchanged when
the index is out of range (an in-place update through a pointer). -/
def listModify : List β → Nat → (β → β) → List β
  | [], _, _ => []
  | b :: l, 0, f => f b :: l
  | b :: l, i + 1, f => b :: listModify l i f

/-- Update one node record in place. -/
def modifyNode (g : Graph α) (nid : Nat) (f : NodeRec α → NodeRec α) : Graph α :=
  { g with arena := listModify g.arena nid f }

/-- Read a hash bucket. -/
def getBucket (g : Graph α) (i : Nat) : List Nat := (g.buckets[i]?).getD []

/-- Replace a hash bucket. -/
def setBucket (g : Graph α) (i : Nat) (b : List Nat) : Graph α :=
  { g with buckets := g.buckets.set i b }

/-- `nodes_cmp`: hash values first, then the identifier bytes.  (Out of
range indices never occur in the source, which dereferences pointers;
the model returns `Ordering.eq` there.) -/
def nodes_cmp (cfg : Cfg α) (g : Graph α) (n1 n2 : Nat) : Ordering :=
  match nodeAt g n1, nodeAt g n2 with
  | some a, some b =>
      if a.hv < b.hv then Ordering.lt
      else if b.hv < a.hv then Ordering.gt
      else cfg.cmp a.ident b.ident
  | _, _ => Ordering.eq

/-- Rewrite the component queue in place, leaving every other field of
the graph alone. -/
def compsMap (g : Graph α) (f : Nat × CompRec → Nat × CompRec) : Graph α :=
  { g with comps := g.comps.map f }

/-- Append a fresh empty component at the tail of the queue. -/
def appendComp (g : Graph α) : Nat × Graph α :=
  (g.nextCompId,
   { g with comps := g.comps ++ [(g.nextCompId, ⟨[], 0, 0⟩)], nextCompId := g.nextCompId + 1 })

/-- `graph_new_component`: `malloc` one component; on success initialize
it empty and insert it at the tail of the graph's component queue. -/
def graph_new_component (cfg : Cfg α) (g : Graph α) : Option Nat × Graph α :=
  let ok := cfg.mallocOk g.mIdx
  let g := { g with mIdx := g.mIdx + 1 }
  if ok then
    let pr := appendComp g
    (some pr.1, pr.2)
  else (none, g)

/-- `graph_remove_component`: unlink the component and free it. -/
def graph_remove_component (g : Graph α) (cid : Nat) : Graph α :=
  { g with comps := g.comps.filter (fun p => p.1 ≠ cid) }

/-- `component_add_node`: append the node to the component's tail queue,
bump the node count, and point the node at its component. -/
def component_add_node (g : Graph α) (cid : Nat) (nid : Nat) : Graph α :=
  let g := compsMap g (fun p =>
    if p.1 = cid then (p.1, { p.2 with nodes := p.2.nodes ++ [nid],
                                       nodeCount := p.2.nodeCount + 1 }) else p)
  modifyNode g nid (fun n => { n with comp := some cid })

/-- `graph_merge_components`: the component with more nodes survives;
the other's members are re-pointed, its node list is concatenated onto
the survivor's, counters are added, and the empty component is removed.
Returns the surviving component. -/
def graph_merge_components (g : Graph α) (c1 c2 : Nat) : Nat × Graph α :=
  let r1 := ((g.comps.find? (fun p => p.1 = c1)).map (·.2)).getD (⟨[], 0, 0⟩ : CompRec)
  let r2 := ((g.comps.find? (fun p => p.1 = c2)).map (·.2)).getD (⟨[], 0, 0⟩ : CompRec)
  let cs := if r2.nodeCount > r1.nodeCount then c2 else c1
  let ca := if r2.nodeCount > r1.nodeCount then c1 else c2
  let ra := ((g.comps.find? (fun p => p.1 = ca)).map (·.2)).getD (⟨[], 0, 0⟩ : CompRec)
  let g := ra.nodes.foldl (fun g nid => modifyNode g nid (fun n => { n with comp := some cs })) g
  let g := compsMap g (fun p =>
    if p.1 = cs then (p.1, { p.2 with nodes := p.2.nodes ++ ra.nodes,
                                      nodeCount := p.2.nodeCount + ra.nodeCount,
                                      edgeCount := p.2.edgeCount + ra.edgeCount }) else p)
  (cs, graph_remove_component g ca)

/-- `node_add_out_edge`: prepend the edge to the source's outgoing list,
bump both degree counters and the owning component's edge count. -/
def node_add_out_edge (g : Graph α) (src tgt : Nat) : Graph α :=
  let comp := compOf g src
  let g := modifyNode g src (fun n => { n with outEdges := tgt :: n.outEdges,
                                               outDegree := n.outDegree + 1 })
  let g := modifyNode g tgt (fun n => { n with inDegree := n.inDegree + 1 })
  match comp with
  | some c => compsMap g (fun p =>
      if p.1 = c then (p.1, { p.2 with edgeCount := p.2.edgeCount + 1 }) else p)
  | none => g

/-- Fuelled helper for `ctz`; the fuel only needs to exceed the number of
halvings, and is always passed as the argument itself. -/
def ctzAux : Nat → Nat → Nat
  | 0, _ => 0
  | fuel + 1, n => if n % 2 = 1 ∨ n = 0 then 0 else ctzAux fuel (n / 2) + 1

/-- Count of trailing zero bits, the C builtin `__builtin_ctz`. -/
def ctz (n : Nat) : Nat := ctzAux n n

/-- `graph_attempt_hash_resize`: allocate a bucket array of twice the
size; on failure saturate the threshold and keep the old table.  On
success every chained node is re-inserted into
`newbucket[n->hv & g->hashmask]` — the source reads `g->hashmask`
*before* updating it, i.e. it redistributes with the old mask — and only
then are the mask and the `2^n * n` threshold updated. -/
def graph_attempt_hash_resize (cfg : Cfg α) (g : Graph α) : Graph α :=
  let oldmask := g.hashmask
  let newsize := 2 * (oldmask + 1)
  let newmask := newsize - 1
  let ok := cfg.mallocOk g.mIdx
  let g := { g with mIdx := g.mIdx + 1 }
  if ok then
    let init : List (List Nat) := List.replicate newsize []
    let newbuckets := g.buckets.foldl (fun nb b =>
      b.foldl (fun nb nid =>
        let hv := match g.arena[nid]? with | some n => n.hv | none => 0
        let i := hv &&& oldmask
        nb.set i (nid :: (nb[i]?).getD [])) nb) init
    let t := newsize * ctz newsize
    { g with buckets := newbuckets, hashmask := newmask,
             resizeThreshold := if t > UINT32_MAX then UINT32_MAX else t }
  else { g with resizeThreshold := UINT32_MAX }

/-- `graph_alloc_node`: obstack-allocate a node (`xmalloc` terminates
the process if a new chunk is needed and `malloc` fails, hence `none`),
bump the 32-bit node count and attempt a resize past the threshold. -/
def graph_alloc_node (cfg : Cfg α) (g : Graph α) (rec : NodeRec α) : Option (Nat × Graph α) :=
  let ok := cfg.obstackOk g.oIdx
  let g := { g with oIdx := g.oIdx + 1 }
  if ok then
    let nid := g.arena.length
    let g := { g with arena := g.arena ++ [rec], nodeCount := wrap32 (g.nodeCount + 1) }
    let g := if g.nodeCount > g.resizeThreshold then graph_attempt_hash_resize cfg g else g
    some (nid, g)
  else none

/-- `graph_remove_last_node`: unchain the node from its hash bucket and
give it back to the obstack (`obstack_free` releases the node and
everything allocated after it), decrementing the 32-bit node count. -/
def graph_remove_last_node (g : Graph α) (nid : Nat) : Graph α :=
  let hv := match nodeAt g nid with | some n => n.hv | none => 0
  let i := g.hashmask &&& hv
  let g := setBucket g i ((getBucket g i).erase nid)
  { g with arena := g.arena.take nid, nodeCount := wrap32 (g.nodeCount + UINT32_MAX) }

/-- The hash-chain scan of `graph_add_node_internal`: walk the bucket
selected by the current mask and return the first node whose hash and
identifier both match. -/
def bucketLookup (cfg : Cfg α) (g : Graph α) (x : α) : Option Nat :=
  let hv := wrap32 (cfg.hash x)
  (getBucket g (hv &&& g.hashmask)).find? (fun nid =>
    match g.arena[nid]? with
    | some n => decide (hv = n.hv ∧ x = n.ident)
    | none => false)

/-- `graph_add_node_internal`: look the identifier up in its hash chain
(first match wins); if absent, allocate and initialize a node, insert it
at the head of its bucket (using the mask as updated by any resize just
triggered), and optionally wrap it in a fresh singleton component.
Outer `none` = the process died in `xmalloc`; inner `none` = the NULL
return of the source. -/
def graph_add_node_internal (cfg : Cfg α) (g : Graph α) (x : α) (create_comp : Bool) :
    Option (Option Nat × Graph α) :=
  let hv := wrap32 (cfg.hash x)
  match bucketLookup cfg g x with
  | some nid => some (some nid, g)
  | none =>
    match graph_alloc_node cfg g ⟨x, hv, [], 0, 0, none⟩ with
    | none => none
    | some (nid, g) =>
      let bi2 := hv &&& g.hashmask
      let g := setBucket g bi2 (nid :: getBucket g bi2)
      if create_comp then
        let pr := graph_new_component cfg g
        match pr.1 with
        | none => some (none, graph_remove_last_node pr.2 nid)
        | some cid => some (some nid, component_add_node pr.2 cid nid)
      else
        some (some nid, g)

/-- `graph_edge_exists`: scan the source's outgoing list for the target. -/
def graph_edge_exists (g : Graph α) (src tgt : Nat) : Bool :=
  match nodeAt g src with
  | some n => n.outEdges.contains tgt
  | none => false

/-- `graph_init`: reject unknown flag bits and the
`GRAPH_UNDIRECTED`+`GRAPH_DUAL` combination with `EINVAL` before any
allocation; then `malloc` 16 buckets (failure returns -1 with `errno`
left to `malloc`'s `ENOMEM`) and begin the two obstacks (each
`obstack_begin` allocates its first chunk through `xmalloc`, which
terminates the process on failure, hence the outer `Option`). -/
def graph_init (cfg : Cfg α) (flags : Nat) : Option (Except Errno (Graph α)) :=
  if hasFlag flags (UINT32_MAX - 15) then some (Except.error Errno.einval)
  else if hasFlag flags GRAPH_UNDIRECTED ∧ hasFlag flags GRAPH_DUAL then
    some (Except.error Errno.einval)
  else if cfg.mallocOk 0 then
    if cfg.obstackOk 0 ∧ cfg.obstackOk 1 then
      some (Except.ok
        { arena := [], buckets := List.replicate 16 [], hashmask := 15,
          nodeCount := 0, resizeThreshold := 64, comps := [], nextCompId := 0,
          flags := flags, mIdx := 1, oIdx := 2 })
    else none
  else some (Except.error Errno.enomem)

/-- `graph_add_node`: add a singleton node; returns 1 when a new
component appeared at the tail of the queue, 0 when the node already
existed, -1 when component allocation failed. -/
def graph_add_node (cfg : Cfg α) (g : Graph α) (x : α) : Option (Graph α × Int) :=
  let last := (g.comps.getLast?).map (·.1)
  match graph_add_node_internal cfg g x true with
  | none => none
  | some (none, g) => some (g, -1)
  | some (some _, g) =>
      some (g, if ((g.comps.getLast?).map (·.1)) = last then 0 else 1)

/-- `do_add_edge`: obstack-allocate the edge, then five cases on the
prior component assignment of the endpoints; returns 1 on success and
-1 when the fresh-component `malloc` of case (a) fails (the edge record
is then given back to the obstack). -/
def do_add_edge (cfg : Cfg α) (g : Graph α) (src tgt : Nat) : Option (Graph α × Int) :=
  let ok := cfg.obstackOk g.oIdx
  let g := { g with oIdx := g.oIdx + 1 }
  if ok then
    match compOf g src with
    | none =>
      match compOf g tgt with
      | none =>
        let pr := graph_new_component cfg g
        match pr.1 with
        | none => some (pr.2, -1)
        | some cid =>
          let g := component_add_node pr.2 cid src
          let g := if src ≠ tgt then component_add_node g cid tgt else g
          some (node_add_out_edge g src tgt, 1)
      | some ct =>
        let g := component_add_node g ct src
        some (node_add_out_edge g src tgt, 1)
    | some cs =>
      match compOf g tgt with
      | none =>
        let g := component_add_node g cs tgt
        some (node_add_out_edge g src tgt, 1)
      | some ct =>
        if cs = ct then some (node_add_out_edge g src tgt, 1)
        else
          let g := (graph_merge_components g cs ct).2
          some (node_add_out_edge g src tgt, 1)
  else none

/-- The body of `graph_add_edge` after both endpoints are resolved and
canonically oriented (`n1`, `n2` are the possibly swapped endpoints;
`swapped` remembers the orientation so that a failed insertion can roll
the freshly created nodes back in proper order): the no-loop and
no-parallel early returns, the edge insertion, the failure rollback, and
the reverse edge of dual mode. -/
def graph_add_edge_resolved (cfg : Cfg α) (g : Graph α) (swapped : Bool) (n1 n2 : Nat) :
    Option (Graph α × Int) :=
  if n1 = n2 ∧ hasFlag g.flags GRAPH_NOLOOP then
    if compOf g n1 = none then
      let pr := graph_new_component cfg g
      match pr.1 with
      | none => some (graph_remove_last_node pr.2 n1, -1)
      | some cid => some (component_add_node pr.2 cid n1, 0)
    else some (g, 0)
  else if hasFlag g.flags GRAPH_NOPARALLEL ∧ compOf g n1 ≠ none ∧
          compOf g n1 = compOf g n2 ∧ graph_edge_exists g n1 n2 = true then
    some (g, 0)
  else
    match do_add_edge cfg g n1 n2 with
    | none => none
    | some (g, r) =>
      if r < 0 then
        let m1 := if swapped then n2 else n1
        let m2 := if swapped then n1 else n2
        let g := if compOf g m2 = none then graph_remove_last_node g m2 else g
        let g := if m1 ≠ m2 ∧ compOf g m1 = none then graph_remove_last_node g m1 else g
        some (g, -1)
      else if hasFlag g.flags GRAPH_DUAL ∧ n1 ≠ n2 then
        match do_add_edge cfg g n2 n1 with
        | none => none
        | some (g, r2) => if r2 < 0 then some (g, -1) else some (g, 2)
      else some (g, 1)

/-- `graph_add_edge`: resolve both endpoints (without components),
canonicalize the orientation in undirected mode, then run the body
above. -/
def graph_add_edge (cfg : Cfg α) (g : Graph α) (s1 s2 : α) : Option (Graph α × Int) :=
  match graph_add_node_internal cfg g s1 false with
  | none => none
  | some (none, g) => some (g, -1)
  | some (some n1, g) =>
    match graph_add_node_internal cfg g s2 false with
    | none => none
    | some (none, g) =>
      let g := if compOf g n1 = none then graph_remove_last_node g n1 else g
      some (g, -1)
    | some (some n2, g) =>
      let swapped : Bool :=
        decide (hasFlag g.flags GRAPH_UNDIRECTED ∧ nodes_cmp cfg g n1 n2 = Ordering.gt)
      graph_add_edge_resolved cfg g swapped (if swapped then n2 else n1)
        (if swapped then n1 else n2)

/-! ### Observations on graph states -/

/-- Total number of edge records in the graph: the sum of the lengths of
all outgoing-edge lists. -/
def edgeTotal (g : Graph α) : Nat :=
  (g.arena.map (fun n => n.outEdges.length)).sum

/-- Number of stored edges from a node identified by `a` to a node
identified by `b` (counting parallel edges and duplicated node records). -/
def identEdgeCount (g : Graph α) (a b : α) : Nat :=
  (g.arena.map (fun n =>
    if n.ident = a then
      (n.outEdges.filter (fun t =>
        match g.arena[t]? with
        | some m => decide (m.ident = b)
        | none => false)).length
    else 0)).sum

/-- Some `malloc` call performed between the two states failed. -/
def mallocFailedBetween (cfg : Cfg α) (g g2 : Graph α) : Prop :=
  ∃ i, g.mIdx ≤ i ∧ i < g2.mIdx ∧ cfg.mallocOk i = false

/-! ### The spec-side graph: operations on identifiers

These definitions follow the spec's words, not the source; they are the
reference side of the component-counting property: the number of
Components must equal the number of connected components of the simple
undirected graph implied by the operations performed so far. -/

/-- An ingestion operation: `graph_add_node` or `graph_add_edge`. -/
inductive GOp (α : Type) where
  | node (x : α) : GOp α
  | edge (a b : α) : GOp α

/-- Add an identifier to a duplicate-free list. -/
def insertIdent (s : List α) (x : α) : List α := if x ∈ s then s else s ++ [x]

/-- The set (duplicate-free list) of identifiers mentioned by a sequence
of operations. -/
def opIdents (ops : List (GOp α)) : List α :=
  ops.foldl (fun s op =>
    match op with
    | GOp.node x => insertIdent s x
    | GOp.edge a b => insertIdent (insertIdent s a) b) []

/-- The (identifier-level) edges inserted by a sequence of operations. -/
def opEdges (ops : List (GOp α)) : List (α × α) :=
  ops.filterMap (fun op =>
    match op with
    | GOp.node _ => none
    | GOp.edge a b => some (a, b))

/-- Merge the partition blocks containing `a` and `b`. -/
def mergeBlocks (p : List (List α)) (a b : α) : List (List α) :=
  match p.find? (fun blk => decide (a ∈ blk)), p.find? (fun blk => decide (b ∈ blk)) with
  | some ba, some bb =>
      if ba = bb then p
      else (p.filter (fun blk => decide (blk ≠ ba ∧ blk ≠ bb))) ++ [ba ++ bb]
  | _, _ => p

/-- Modelled from the spec: the number of connected components of the
simple undirected graph implied by all edges inserted so far (ignoring
direction), each node added by `add_node` and not yet touched by any
edge counting as its own singleton component. -/
def specComponentCount (ops : List (GOp α)) : Nat :=
  let p0 := (opIdents ops).map (fun x => [x])
  ((opEdges ops).foldl (fun p e => mergeBlocks p e.1 e.2) p0).length

/-- Run a sequence of operations through the engine, requiring every call
to complete and succeed (`none` when some call dies or returns -1). -/
def runOps (cfg : Cfg α) (og : Option (Graph α)) (ops : List (GOp α)) : Option (Graph α) :=
  ops.foldl (fun og op => og.bind (fun g =>
    (match op with
     | GOp.node x => graph_add_node cfg g x
     | GOp.edge a b => graph_add_edge cfg g a b).bind
      (fun p => if p.2 < 0 then none else some p.1))) og

/-! ### Concrete configurations and runs

Identifiers are instantiated with `Nat`; the spec-modelled hash is the
identity (any function of the identifier is a legal instance, since
`jenkins_hash.c` is not among the sources). -/

/-- All allocations succeed; the hash of identifier `n` is `n` itself. -/
def cfgN : Cfg Nat :=
  { hash := fun n => n, cmp := fun a b => compare a b,
    mallocOk := fun _ => true, obstackOk := fun _ => true }

/-- Like `cfgN`, but the `malloc` call that would grow the bucket array
on the 65th node insertion (call index 65: index 0 is the initial bucket
array, indices 1-64 the first 64 singleton components) fails. -/
def cfgResizeFail : Cfg Nat := { cfgN with mallocOk := fun i => i ≠ 65 }

/-- The graph produced by `graph_init`, when it succeeds. -/
def initialGraph (cfg : Cfg Nat) (flags : Nat) : Option (Graph Nat) :=
  match graph_init cfg flags with
  | some (Except.ok g) => some g
  | _ => none

/-- `add_node` operations for the identifiers `0, 1, ..., n-1`. -/
def seqNodes (n : Nat) : List (GOp Nat) := (List.range n).map GOp.node

/-! ### The clique engine (`clique.c`)

`component_iterate_maximal_cliques` reads a finished component: the
member list of the component, each member's outgoing-edge target list
(`graph_edge_exists`, the `N(v)` construction) and its `out_degree`
field (pivot selection).  Node pointers are compared by address
(`cmp_nodeptr`), an arbitrary but stable total order; we model nodes of
the component as an arbitrary linearly ordered type `V`.  Node sets are
modelled by their contents in order; on the sorted lists maintained by
the algorithm, the binary searches of `nodeset_contains` and
`nodeset_insert_sorted` coincide with list membership and ordered
insertion.  Allocation in the clique engine returns -1 to the caller on
failure before any further callback runs, so it is modelled as always
succeeding; the `abort()` branch of `nodeset_insert_sorted` (inserting
an element already present) is modelled by `none`. -/

/-- The read-only view of a component consumed by the clique engine. -/
structure CliqueGraph (V : Type) where
  edges : V → List V
  deg : V → Nat

/-- `graph_edge_exists` on the component view. -/
def adjb (G : CliqueGraph V) [LinearOrder V] (u v : V) : Bool := decide (v ∈ G.edges u)

/-- `nodeset_insert_sorted` on a sorted list: insert before the first
greater element; inserting an element already present hits the
`abort()` branch of the source, modelled as `none`. -/
def insertSorted [LinearOrder V] : List V → V → Option (List V)
  | [], x => some [x]
  | y :: l, x =>
    if x < y then some (x :: y :: l)
    else if y < x then (insertSorted l x).map (fun t => y :: t)
    else none

/-- A sequence of `nodeset_insert_sorted` calls starting from an empty
set (used to build `N(v)` and the new candidate set). -/
def buildSorted [LinearOrder V] (l : List V) : Option (List V) :=
  List.foldlM insertSorted [] l

/-- Pivot selection: the node of P ∪ X with the largest `out_degree`,
scanning P first (starting from its head) and then X, keeping the
earlier node on ties. -/
def pickPivot (G : CliqueGraph V) (p0 : V) (rest X : List V) : V :=
  (rest ++ X).foldl (fun b w => if G.deg w > G.deg b then w else b) p0

/-- The explore/skip loop of `BronKerbosch` over the candidate array P.
`bk` is the recursive call at one less fuel; `stillP` accumulates the
pivot neighbours that remain conceptually in P; `X` is the excluded set,
which grows as explored candidates retire.  Returns the propagated
callback value and the list of node arrays passed to the callback. -/
def BKloop (G : CliqueGraph V) [LinearOrder V]
    (bk : List V → List V → List V → Option (Int × List (List V)))
    (R : List V) (pivot : V) :
    List V → List V → List V → Option (Int × List (List V))
  | _, _, [] => some (0, [])
  | stillP, X, v :: rest =>
    if adjb G pivot v then
      match insertSorted stillP v with
      | none => none
      | some s => BKloop G bk R pivot s X rest
    else
      match buildSorted (G.edges v) with
      | none => none
      | some nv =>
        match buildSorted (stillP.filter (fun w => decide (w ∈ nv)) ++
                           rest.filter (fun w => decide (w ∈ nv))) with
        | none => none
        | some newP =>
          let newX := nv.filter (fun w => decide (w ∈ X))
          match bk (R ++ [v]) newP newX with
          | none => none
          | some (ret, reps) =>
            if ret ≠ 0 then some (ret, reps)
            else
              match insertSorted X v with
              | none => none
              | some X2 =>
                match BKloop G bk R pivot stillP X2 rest with
                | none => none
                | some (r2, reps2) => some (r2, reps ++ reps2)

/-- `BronKerbosch` with pivoting: report R (invoke the callback) iff both
P and X are empty; otherwise pick the pivot and run the loop over P.
The fuel argument bounds the recursion depth; the entry point passes
more than enough. -/
def BronKerbosch (G : CliqueGraph V) [LinearOrder V] (cb : List V → Int) :
    Nat → List V → List V → List V → Option (Int × List (List V))
  | 0, _, _, _ => none
  | fuel + 1, R, P, X =>
    match P with
    | [] => if X.isEmpty then some (cb R, [R]) else some (0, [])
    | p0 :: prest =>
      BKloop G (BronKerbosch G cb fuel) R (pickPivot G p0 prest X) [] X P

/-- `component_iterate_maximal_cliques`: P starts as the component's
member list, sorted; X and R start empty. -/
def component_iterate_maximal_cliques (G : CliqueGraph V) [LinearOrder V]
    (cb : List V → Int) (compNodes : List V) : Option (Int × List (List V)) :=
  BronKerbosch G cb (compNodes.length + 2) []
    (List.insertionSort (fun a b => a ≤ b) compNodes) []

/-- A clique: all pairs of distinct members mutually adjacent. -/
def IsClique (G : CliqueGraph V) [LinearOrder V] (l : List V) : Prop :=
  ∀ u ∈ l, ∀ v ∈ l, u ≠ v → adjb G u v = true

/-- A maximal clique among the nodes of `dom`: a duplicate-free clique
that no node of `dom` outside it extends. -/
def IsMaximalClique (G : CliqueGraph V) [LinearOrder V] (dom l : List V) : Prop :=
  l.Nodup ∧ IsClique G l ∧
  ∀ w ∈ dom, w ∉ l → ¬(∀ u ∈ l, adjb G u w = true)

/-- The invariant of the Bron–Kerbosch recursion: R is a duplicate-free
clique drawn from `dom`, every candidate or excluded node is adjacent to
all of R, and every node of `dom` outside R that is adjacent to all of R
appears in P or X. -/
def BKInv (G : CliqueGraph V) [LinearOrder V] (dom R P X : List V) : Prop :=
  R.Nodup ∧
  (∀ w ∈ R, w ∈ dom) ∧ (∀ w ∈ P, w ∈ dom) ∧ (∀ w ∈ X, w ∈ dom) ∧
  (∀ w, (w ∈ P ∨ w ∈ X) → ∀ u ∈ R, adjb G u w = true) ∧
  IsClique G R ∧
  (∀ w ∈ dom, w ∉ R → (∀ u ∈ R, adjb G u w = true) → w ∈ P ∨ w ∈ X)

/-- The state `graph_init` builds when every allocation succeeds: 16
empty buckets, threshold 64, no nodes or components. -/
def emptyGraph (flags : Nat) : Graph Nat :=
  { arena := [], buckets := List.replicate 16 [], hashmask := 15,
    nodeCount := 0, resizeThreshold := 64, comps := [], nextCompId := 0,
    flags := flags, mIdx := 1, oIdx := 2 }

/-- A two-node component with one mutual edge, as built with the
no-loop/no-parallel/dual flags. -/
def Gpair : CliqueGraph Nat :=
  { edges := fun v => if v = 0 then [1] else if v = 1 then [0] else [],
    deg := fun v => if v ≤ 1 then 1 else 0 }

/-- The empty graph with a saturated resize threshold, the state left
behind by a failed bucket-array growth. -/
def gSat : Graph Nat := { emptyGraph 0 with resizeThreshold := UINT32_MAX }

/-- A one-node graph holding identifier 3 (hash 3, chained in bucket 3)
with a saturated resize threshold. -/
def oneNodeGraph : Graph Nat :=
  { arena := [⟨3, 3, [], 0, 0, none⟩], buckets := (List.replicate 16 []).set 3 [0],
    hashmask := 15, nodeCount := 1, resizeThreshold := UINT32_MAX, comps := [],
    nextCompId := 0, flags := 0, mIdx := 1, oIdx := 3 }

/-! ## Theorems -/

set_option maxRecDepth 1000000 in
/-- C1: the claim fails on the code.  `graph_attempt_hash_resize`
redistributes the chained nodes into `newbucket[n->hv & g->hashmask]`
with `g->hashmask` still holding the old mask, and updates the mask only
afterwards.  Concretely: insert the 65 identifiers 0..64 (spec-modelled
hash = identity); the 65th insertion doubles the table from 16 to 32
buckets but leaves the record of identifier 17 chained in bucket
17 & 15 = 1, while subsequent lookups scan bucket 17 & 31 = 17.  A later
`graph_add_node_internal` for identifier 17 therefore misses the
existing Node (arena index 17, whose identifier is 17 as the first
conjunct shows), allocates a fresh Node (index 65), and leaves the index
holding two distinct Node records with equal identifier strings. -/
theorem C1_hash_resize_loses_nodes :
    ((runOps cfgN (initialGraph cfgN 0) (seqNodes 65)).bind
      (fun g => (graph_add_node_internal cfgN g 17 true).map
        (fun p => ((nodeAt g 17).map (fun n => n.ident), p.1,
                   (p.2.arena.filter (fun n => n.ident = 17)).length)))) =
      some (some 17, some 65, 2) := by
  decide

set_option maxRecDepth 1000000 in
/-- C2: the claim fails on the code, through the stale-mask resize bug
of `graph_attempt_hash_resize`.  After 65 `graph_add_node` calls
(identifiers 0..64, spec-modelled hash = identity) and one
`graph_add_edge 17 100` call, all successful, the engine holds 66
Components: the edge insertion misses the existing node 17 (stranded by
the resize), creates a duplicate record for it and a fresh two-node
component, while the simple undirected identifier graph (66 nodes, one
edge) has 65 connected components. -/
theorem C2_component_count_diverges_after_resize :
    ((runOps cfgN (initialGraph cfgN 0) (seqNodes 65 ++ [GOp.edge 17 100])).map
      (fun g => g.comps.length)) = some 66 ∧
    specComponentCount (seqNodes 65 ++ [GOp.edge 17 100]) = 65 := by
  constructor
  · decide
  · decide

set_option maxRecDepth 1000000 in
/-- C6: counterexample to the claim as stated.  When the bucket-array
`malloc` fails, `graph_attempt_hash_resize` sets `resize_threshold` to
`UINT32_MAX` and returns; the resize is never retried.  Concretely: the
`malloc` call that would grow the table on the 65th insertion fails;
after 80 insertions with a again fully working allocator the table still
has 16 buckets and mask 15, although the node count 80 exceeds the
policy threshold 64, and the threshold is pinned at `UINT32_MAX`, which
the 32-bit node count can never exceed. -/
theorem C6_resize_never_retried :
    ((runOps cfgResizeFail (initialGraph cfgResizeFail 0) (seqNodes 80)).map
      (fun g => (g.hashmask, g.buckets.length, g.resizeThreshold, g.nodeCount))) =
      some (15, 16, 4294967295, 80) := by
  decide

set_option maxRecDepth 1000000 in
/-- C7: the claim fails on the code, through the stale-mask resize bug.
With `GRAPH_NOPARALLEL` set, after 64 `graph_add_node` calls
(identifiers 0..63, spec-modelled hash = identity), a first
`graph_add_edge 17 64` succeeds (returning 1) and triggers the resize
while creating node 64, stranding the record of identifier 17 in a
bucket the new mask never scans.  The second, identical
`graph_add_edge 17 64` then misses node 17, creates a duplicate record,
links a second edge and returns 1 — not 0 — leaving two stored edges
from identifier 17 to identifier 64. -/
theorem C7_duplicate_edge_after_resize :
    ((runOps cfgN (initialGraph cfgN 2) (seqNodes 64)).bind
      (fun g => (graph_add_edge cfgN g 17 64).bind
        (fun p1 => (graph_add_edge cfgN p1.1 17 64).map
          (fun p2 => (p1.2, p2.2, identEdgeCount p2.1 17 64))))) =
      some (1, 1, 2) := by
  decide

set_option maxRecDepth 1000000 in
/-- C8: the claim fails on the code, through the stale-mask resize bug.
With `GRAPH_UNDIRECTED` and `GRAPH_NOPARALLEL` set, from the same
64-node state (identifiers 0..63, spec-modelled hash = identity),
`graph_add_edge 100 17` resolves identifier 100 first — creating node 64
and triggering the resize that strands node 17 — and then misses 17 and
duplicates it: 66 node records, 65 components.  `graph_add_edge 17 100`
resolves 17 before the resize happens and reuses it: 65 node records, 64
components.  The two states differ, so the two calls do not produce the
same graph state. -/
theorem C8_argument_order_changes_state :
    ((runOps cfgN (initialGraph cfgN 3) (seqNodes 64)).bind
      (fun g => (graph_add_edge cfgN g 100 17).map
        (fun p => (p.2, p.1.comps.length, p.1.arena.length)))) = some (1, 65, 66) ∧
    ((runOps cfgN (initialGraph cfgN 3) (seqNodes 64)).bind
      (fun g => (graph_add_edge cfgN g 17 100).map
        (fun p => (p.2, p.1.comps.length, p.1.arena.length)))) = some (1, 64, 65) := by
  constructor
  · decide
  · decide

/-- C10: `graph_init` rejects any flags argument containing a bit
outside the four defined flags: it returns -1 with `errno = EINVAL`,
for every state of the allocator (so before allocating any graph
storage), exactly as it rejects the undirected-with-dual combination. -/
theorem C10_graph_init_rejects_unknown_flags {α : Type} [DecidableEq α] :
    (∀ (cfg : Cfg α) (flags : Nat), hasFlag flags (UINT32_MAX - 15) →
       graph_init cfg flags = some (Except.error Errno.einval)) ∧
    (∀ cfg : Cfg α,
       graph_init cfg (GRAPH_UNDIRECTED ||| GRAPH_DUAL) = some (Except.error Errno.einval)) := by
  constructor
  · intro cfg flags h
    unfold graph_init
    rw [if_pos h]
  · intro cfg
    rfl

/-- Witness for C10: the unknown bit 16 and the undirected+dual
combination are both rejected for the concrete configuration `cfgN`. -/
theorem C10_witness :
    hasFlag 16 (UINT32_MAX - 15) ∧
    graph_init cfgN 16 = some (Except.error Errno.einval) ∧
    graph_init cfgN (GRAPH_UNDIRECTED ||| GRAPH_DUAL) = some (Except.error Errno.einval) :=
  ⟨by decide, C10_graph_init_rejects_unknown_flags.1 cfgN 16 (by decide),
   C10_graph_init_rejects_unknown_flags.2 cfgN⟩

/-! Helper lemmas (batch 2 development) -/

theorem listModify_length (l : List β) (i : Nat) (f : β → β) :
    (listModify l i f).length = l.length := by
  induction l generalizing i with
  | nil => rfl
  | cons b l ih =>
    cases i with
    | zero => rfl
    | succ j => simp [listModify, ih]

theorem sum_map_listModify_eq (l : List β) (i : Nat) (f : β → β) (w : β → Nat)
    (h : ∀ b, w (f b) = w b) :
    ((listModify l i f).map w).sum = (l.map w).sum := by
  induction l generalizing i with
  | nil => rfl
  | cons b l ih =>
    cases i with
    | zero => simp [listModify, h]
    | succ j => simp [listModify, ih]

theorem sum_map_listModify_add (l : List β) (i : Nat) (f : β → β) (w : β → Nat) (k : Nat)
    (h : ∀ b, w (f b) = w b + k) (hi : i < l.length) :
    ((listModify l i f).map w).sum = (l.map w).sum + k := by
  induction l generalizing i with
  | nil => simp at hi
  | cons b l ih =>
    cases i with
    | zero => simp [listModify, h]; omega
    | succ j =>
      have hj : j < l.length := by simpa using hi
      simp [listModify, ih j hj]; omega

theorem getElem?_listModify_self (l : List β) (i : Nat) (f : β → β) :
    (listModify l i f)[i]? = (l[i]?).map f := by
  induction l generalizing i with
  | nil => rfl
  | cons b l ih =>
    cases i with
    | zero => simp [listModify]
    | succ j => simpa [listModify] using ih j

theorem getElem?_listModify_ne (l : List β) (i j : Nat) (f : β → β) (h : i ≠ j) :
    (listModify l i f)[j]? = l[j]? := by
  induction l generalizing i j with
  | nil => rfl
  | cons b l ih =>
    cases i with
    | zero =>
      cases j with
      | zero => exact absurd rfl h
      | succ j2 => simp [listModify]
    | succ i2 =>
      cases j with
      | zero => simp [listModify]
      | succ j2 => simpa [listModify] using ih i2 j2 (by omega)

@[simp] theorem setBucket_arena (g : Graph α) (i : Nat) (b : List Nat) :
    (setBucket g i b).arena = g.arena := rfl

@[simp] theorem setBucket_flags (g : Graph α) (i : Nat) (b : List Nat) :
    (setBucket g i b).flags = g.flags := rfl

@[simp] theorem setBucket_mIdx (g : Graph α) (i : Nat) (b : List Nat) :
    (setBucket g i b).mIdx = g.mIdx := rfl

@[simp] theorem compsMap_arena (g : Graph α) (f : Nat × CompRec → Nat × CompRec) :
    (compsMap g f).arena = g.arena := rfl

@[simp] theorem compsMap_flags (g : Graph α) (f : Nat × CompRec → Nat × CompRec) :
    (compsMap g f).flags = g.flags := rfl

@[simp] theorem compsMap_mIdx (g : Graph α) (f : Nat × CompRec → Nat × CompRec) :
    (compsMap g f).mIdx = g.mIdx := rfl

@[simp] theorem appendComp_arena (g : Graph α) :
    (appendComp g).2.arena = g.arena := rfl

@[simp] theorem appendComp_flags (g : Graph α) :
    (appendComp g).2.flags = g.flags := rfl

@[simp] theorem appendComp_mIdx (g : Graph α) :
    (appendComp g).2.mIdx = g.mIdx := rfl

@[simp] theorem graph_remove_component_arena (g : Graph α) (cid : Nat) :
    (graph_remove_component g cid).arena = g.arena := rfl

@[simp] theorem graph_remove_component_flags (g : Graph α) (cid : Nat) :
    (graph_remove_component g cid).flags = g.flags := rfl

@[simp] theorem graph_remove_component_mIdx (g : Graph α) (cid : Nat) :
    (graph_remove_component g cid).mIdx = g.mIdx := rfl

@[simp] theorem modifyNode_flags (g : Graph α) (nid : Nat) (f : NodeRec α → NodeRec α) :
    (modifyNode g nid f).flags = g.flags := rfl

@[simp] theorem modifyNode_mIdx (g : Graph α) (nid : Nat) (f : NodeRec α → NodeRec α) :
    (modifyNode g nid f).mIdx = g.mIdx := rfl

@[simp] theorem modifyNode_arena_length (g : Graph α) (nid : Nat) (f : NodeRec α → NodeRec α) :
    (modifyNode g nid f).arena.length = g.arena.length := listModify_length _ _ _

theorem edgeTotal_modifyNode_eq (g : Graph α) (nid : Nat) (f : NodeRec α → NodeRec α)
    (h : ∀ n, (f n).outEdges = n.outEdges) :
    edgeTotal (modifyNode g nid f) = edgeTotal g :=
  sum_map_listModify_eq _ _ _ _ (fun n => by simp [h])

@[simp] theorem edgeTotal_compsMap (g : Graph α) (f : Nat × CompRec → Nat × CompRec) :
    edgeTotal (compsMap g f) = edgeTotal g := rfl

theorem component_add_node_obs (g : Graph α) (cid nid : Nat) :
    edgeTotal (component_add_node g cid nid) = edgeTotal g ∧
    (component_add_node g cid nid).arena.length = g.arena.length ∧
    (component_add_node g cid nid).flags = g.flags ∧
    (component_add_node g cid nid).mIdx = g.mIdx := by
  refine ⟨?_, ?_, rfl, rfl⟩
  · exact sum_map_listModify_eq _ _ _ _ (fun n => rfl)
  · exact listModify_length _ _ _

theorem node_add_out_edge_obs (g : Graph α) (src tgt : Nat) (hsrc : src < g.arena.length) :
    edgeTotal (node_add_out_edge g src tgt) = edgeTotal g + 1 ∧
    (node_add_out_edge g src tgt).arena.length = g.arena.length ∧
    (node_add_out_edge g src tgt).flags = g.flags ∧
    (node_add_out_edge g src tgt).mIdx = g.mIdx := by
  have e1 : edgeTotal (modifyNode g src
      (fun n => { n with outEdges := tgt :: n.outEdges, outDegree := n.outDegree + 1 })) =
      edgeTotal g + 1 :=
    sum_map_listModify_add _ _ _ _ 1 (fun n => by simp) hsrc
  have key : edgeTotal (modifyNode (modifyNode g src
      (fun n => { n with outEdges := tgt :: n.outEdges, outDegree := n.outDegree + 1 })) tgt
      (fun n => { n with inDegree := n.inDegree + 1 })) = edgeTotal g + 1 :=
    (edgeTotal_modifyNode_eq _ tgt
      (fun n => { n with inDegree := n.inDegree + 1 }) (fun n => rfl)).trans e1
  unfold node_add_out_edge
  cases hc : compOf g src with
  | none =>
    refine ⟨key, by simp, rfl, rfl⟩
  | some c =>
    refine ⟨by simpa using key, by simp, rfl, rfl⟩

theorem foldl_setcomp_obs (u : List Nat) (g : Graph α) (cs : Nat) :
    edgeTotal (u.foldl (fun g nid => modifyNode g nid (fun n => { n with comp := some cs })) g) =
      edgeTotal g ∧
    (u.foldl (fun g nid => modifyNode g nid (fun n => { n with comp := some cs })) g).arena.length =
      g.arena.length ∧
    (u.foldl (fun g nid => modifyNode g nid (fun n => { n with comp := some cs })) g).flags =
      g.flags ∧
    (u.foldl (fun g nid => modifyNode g nid (fun n => { n with comp := some cs })) g).mIdx =
      g.mIdx := by
  induction u generalizing g with
  | nil => exact ⟨rfl, rfl, rfl, rfl⟩
  | cons a u ih =>
    obtain ⟨e, l, f, m⟩ := ih (modifyNode g a (fun n => { n with comp := some cs }))
    refine ⟨?_, ?_, ?_, ?_⟩
    · exact (List.foldl_cons _ _ ▸ e).trans (edgeTotal_modifyNode_eq _ _ _ (fun n => rfl))
    · simpa using l
    · simpa using f
    · simpa using m

theorem graph_merge_components_obs (g : Graph α) (c1 c2 : Nat) :
    edgeTotal (graph_merge_components g c1 c2).2 = edgeTotal g ∧
    (graph_merge_components g c1 c2).2.arena.length = g.arena.length ∧
    (graph_merge_components g c1 c2).2.flags = g.flags ∧
    (graph_merge_components g c1 c2).2.mIdx = g.mIdx := by
  unfold graph_merge_components
  dsimp only
  obtain ⟨e, l, f, m⟩ := foldl_setcomp_obs
    ((((g.comps.find? (fun p => p.1 =
        if ((((g.comps.find? (fun p => p.1 = c2)).map (·.2)).getD (⟨[], 0, 0⟩ : CompRec)).nodeCount >
            (((g.comps.find? (fun p => p.1 = c1)).map (·.2)).getD (⟨[], 0, 0⟩ : CompRec)).nodeCount)
        then c1 else c2)).map (·.2)).getD (⟨[], 0, 0⟩ : CompRec)).nodes) g
    (if ((((g.comps.find? (fun p => p.1 = c2)).map (·.2)).getD (⟨[], 0, 0⟩ : CompRec)).nodeCount >
         (((g.comps.find? (fun p => p.1 = c1)).map (·.2)).getD (⟨[], 0, 0⟩ : CompRec)).nodeCount)
     then c2 else c1)
  exact ⟨by simpa using e, by simpa using l, by simpa using f, by simpa using m⟩

theorem graph_attempt_hash_resize_obs (cfg : Cfg α) (g : Graph α) :
    (graph_attempt_hash_resize cfg g).arena = g.arena ∧
    (graph_attempt_hash_resize cfg g).flags = g.flags ∧
    (graph_attempt_hash_resize cfg g).mIdx = g.mIdx + 1 := by
  unfold graph_attempt_hash_resize
  by_cases h : cfg.mallocOk g.mIdx <;> simp [h]

theorem graph_alloc_node_obs (cfg : Cfg α) (g : Graph α) (rec : NodeRec α) (nid : Nat)
    (g2 : Graph α) (h : graph_alloc_node cfg g rec = some (nid, g2)) :
    nid = g.arena.length ∧ g2.arena = g.arena ++ [rec] ∧ g2.flags = g.flags ∧
    g.mIdx ≤ g2.mIdx := by
  unfold graph_alloc_node at h
  by_cases hok : cfg.obstackOk g.oIdx
  · simp only [hok, if_true] at h
    split at h
    · simp only [Option.some_inj, Prod.mk.injEq] at h
      obtain ⟨h1, h2⟩ := h
      obtain ⟨e, f, m⟩ := graph_attempt_hash_resize_obs cfg
        { g with oIdx := g.oIdx + 1, arena := g.arena ++ [rec],
                 nodeCount := wrap32 (g.nodeCount + 1) }
      subst h2
      exact ⟨h1.symm, by simpa using e, by simpa using f, by simp [m]⟩
    · simp only [Option.some_inj, Prod.mk.injEq] at h
      obtain ⟨h1, h2⟩ := h
      subst h2
      exact ⟨h1.symm, rfl, rfl, le_refl _⟩
  · simp [hok] at h

theorem bucketLookup_some (cfg : Cfg α) (g : Graph α) (x : α) (nid : Nat)
    (h : bucketLookup cfg g x = some nid) :
    ∃ n, g.arena[nid]? = some n ∧ n.ident = x ∧ n.hv = wrap32 (cfg.hash x) ∧
      nid < g.arena.length := by
  unfold bucketLookup at h
  have hp := List.find?_some h
  cases harena : g.arena[nid]? with
  | none => rw [harena] at hp; simp at hp
  | some n =>
    rw [harena] at hp
    simp only [decide_eq_true_eq] at hp
    obtain ⟨h1, h2⟩ := hp
    have hlt : nid < g.arena.length := by
      by_contra hc
      rw [List.getElem?_eq_none (by omega)] at harena
      exact absurd harena (by simp)
    exact ⟨n, rfl, h2.symm, h1.symm, hlt⟩

theorem graph_remove_last_node_restore (g : Graph α) (A : List (NodeRec α)) (rec : NodeRec α)
    (hA : g.arena = A ++ [rec]) :
    (graph_remove_last_node g A.length).arena = A ∧
    (graph_remove_last_node g A.length).flags = g.flags ∧
    (graph_remove_last_node g A.length).mIdx = g.mIdx := by
  unfold graph_remove_last_node
  refine ⟨?_, rfl, rfl⟩
  show (g.arena.take A.length) = A
  rw [hA]
  exact List.take_left A [rec]

theorem graph_new_component_obs (cfg : Cfg α) (g : Graph α) :
    (graph_new_component cfg g).2.arena = g.arena ∧
    (graph_new_component cfg g).2.flags = g.flags ∧
    (graph_new_component cfg g).2.mIdx = g.mIdx + 1 ∧
    ((graph_new_component cfg g).1 = none → cfg.mallocOk g.mIdx = false) := by
  unfold graph_new_component
  by_cases h : cfg.mallocOk g.mIdx <;> simp [h, appendComp]

theorem component_add_node_arena_length (g : Graph α) (cid nid : Nat) :
    (component_add_node g cid nid).arena.length = g.arena.length :=
  (component_add_node_obs g cid nid).2.1

theorem add_node_internal_obs (cfg : Cfg α) (g : Graph α) (x : α) (create : Bool)
    (res : Option Nat) (g2 : Graph α)
    (h : graph_add_node_internal cfg g x create = some (res, g2)) :
    edgeTotal g2 = edgeTotal g ∧ g.arena.length ≤ g2.arena.length ∧
    g2.flags = g.flags ∧ g.mIdx ≤ g2.mIdx ∧
    (∀ nid, res = some nid → nid < g2.arena.length) ∧
    (create = false → res ≠ none) := by
  unfold graph_add_node_internal at h
  simp only [] at h
  cases hl : bucketLookup cfg g x with
  | some nid =>
    rw [hl] at h
    simp only [Option.some_inj, Prod.mk.injEq] at h
    obtain ⟨h1, h2⟩ := h
    subst h2
    obtain ⟨n, -, -, -, hlt⟩ := bucketLookup_some cfg g x nid hl
    refine ⟨rfl, le_refl _, rfl, le_refl _, ?_, fun _ => by simp [h1.symm]⟩
    intro nid2 hres
    rw [h1.symm] at hres
    exact (Option.some_inj.mp hres) ▸ hlt
  | none =>
    rw [hl] at h
    cases halloc : graph_alloc_node cfg g ⟨x, wrap32 (cfg.hash x), [], 0, 0, none⟩ with
    | none => rw [halloc] at h; simp at h
    | some pr =>
      obtain ⟨nid, ga⟩ := pr
      rw [halloc] at h
      obtain ⟨hnid, hga, hfla, hm⟩ := graph_alloc_node_obs _ _ _ _ _ halloc
      subst hnid
      have hlen : ga.arena.length = g.arena.length + 1 := by simp [hga]
      have hedge : edgeTotal ga = edgeTotal g := by
        show (ga.arena.map (fun n => n.outEdges.length)).sum = _
        rw [hga]
        simp [edgeTotal]
      cases create with
      | false =>
        simp only [Bool.false_eq_true, if_false, Option.some_inj, Prod.mk.injEq] at h
        obtain ⟨h1, h2⟩ := h
        subst h2
        refine ⟨by simpa using hedge, by simp [hlen], by simpa using hfla,
                by simpa using hm, ?_, fun _ => by simp [h1.symm]⟩
        intro nid2 hres
        rw [h1.symm] at hres
        have : nid2 = g.arena.length := (Option.some_inj.mp hres).symm
        subst this
        simp [hlen]
      | true =>
        simp only [if_true] at h
        cases hnc : (graph_new_component cfg
            (setBucket ga (wrap32 (cfg.hash x) &&& ga.hashmask)
              (g.arena.length :: getBucket ga (wrap32 (cfg.hash x) &&& ga.hashmask)))).1 with
        | none =>
          rw [hnc] at h
          simp only [Option.some_inj, Prod.mk.injEq] at h
          obtain ⟨h1, h2⟩ := h
          obtain ⟨ha2, hf2, hm2, hfail⟩ := graph_new_component_obs cfg
            (setBucket ga (wrap32 (cfg.hash x) &&& ga.hashmask)
              (g.arena.length :: getBucket ga (wrap32 (cfg.hash x) &&& ga.hashmask)))
          obtain ⟨hra, hrf, hrm⟩ := graph_remove_last_node_restore
            ((graph_new_component cfg
              (setBucket ga (wrap32 (cfg.hash x) &&& ga.hashmask)
                (g.arena.length :: getBucket ga (wrap32 (cfg.hash x) &&& ga.hashmask)))).2)
            g.arena ⟨x, wrap32 (cfg.hash x), [], 0, 0, none⟩ (by simpa [hga] using ha2)
          subst h2
          constructor
          · show edgeTotal _ = edgeTotal g
            unfold edgeTotal
            rw [hra]
          refine ⟨by rw [hra], ?_, ?_, fun nid2 hres => by rw [h1.symm] at hres; simp at hres,
                  fun hcf => by simp at hcf⟩
          · rw [hrf, hf2]
            simpa using hfla
          · rw [hrm, hm2]
            simp only [setBucket_mIdx]
            omega
        | some cid =>
          rw [hnc] at h
          simp only [Option.some_inj, Prod.mk.injEq] at h
          obtain ⟨h1, h2⟩ := h
          obtain ⟨ha2, hf2, hm2, -⟩ := graph_new_component_obs cfg
            (setBucket ga (wrap32 (cfg.hash x) &&& ga.hashmask)
              (g.arena.length :: getBucket ga (wrap32 (cfg.hash x) &&& ga.hashmask)))
          obtain ⟨hce, hcl, hcf, hcm⟩ := component_add_node_obs
            ((graph_new_component cfg
              (setBucket ga (wrap32 (cfg.hash x) &&& ga.hashmask)
                (g.arena.length :: getBucket ga (wrap32 (cfg.hash x) &&& ga.hashmask)))).2)
            cid g.arena.length
          subst h2
          have hlen2 : (component_add_node
              ((graph_new_component cfg
                (setBucket ga (wrap32 (cfg.hash x) &&& ga.hashmask)
                  (g.arena.length :: getBucket ga (wrap32 (cfg.hash x) &&& ga.hashmask)))).2)
              cid g.arena.length).arena.length = g.arena.length + 1 := by
            rw [hcl, ha2]
            simpa using hlen
          refine ⟨?_, by omega, ?_, ?_, ?_, fun hcf2 => by simp at hcf2⟩
          · rw [hce]
            show edgeTotal _ = edgeTotal g
            unfold edgeTotal
            rw [ha2]
            simpa [edgeTotal] using hedge
          · rw [hcf, hf2]
            simpa using hfla
          · rw [hcm, hm2]
            simp only [setBucket_mIdx]
            omega
          · intro nid2 hres
            rw [h1.symm] at hres
            have : nid2 = g.arena.length := (Option.some_inj.mp hres).symm
            subst this
            rw [hlen2]
            omega

theorem do_add_edge_obs (cfg : Cfg α) (g : Graph α) (src tgt : Nat) (g2 : Graph α) (r : Int)
    (hsrc : src < g.arena.length) (h : do_add_edge cfg g src tgt = some (g2, r)) :
    g2.arena.length = g.arena.length ∧ g2.flags = g.flags ∧ g.mIdx ≤ g2.mIdx ∧
    ((r = 1 ∧ edgeTotal g2 = edgeTotal g + 1) ∨
     (r = -1 ∧ edgeTotal g2 = edgeTotal g ∧ mallocFailedBetween cfg g g2)) := by
  unfold do_add_edge at h
  simp only [] at h
  by_cases hok : cfg.obstackOk g.oIdx
  case neg => simp [hok] at h
  case pos =>
    simp only [hok, if_true] at h
    cases h1 : compOf { g with oIdx := g.oIdx + 1 } src with
    | none =>
      rw [h1] at h
      simp only [] at h
      cases h2 : compOf { g with oIdx := g.oIdx + 1 } tgt with
      | none =>
        rw [h2] at h
        simp only [] at h
        cases hnc : (graph_new_component cfg { g with oIdx := g.oIdx + 1 }).1 with
        | none =>
          rw [hnc] at h
          simp only [Option.some_inj, Prod.mk.injEq] at h
          obtain ⟨hg, hr⟩ := h
          subst hg
          obtain ⟨ha, hf, hm, hfail⟩ := graph_new_component_obs cfg { g with oIdx := g.oIdx + 1 }
          refine ⟨by simp [ha], by simp only [hf]; try rfl, by simp only [hm]; try exact Nat.le_succ _,
                  Or.inr ⟨hr.symm, ?_, ?_⟩⟩
          · show (List.map _ _).sum = _
            rw [ha]
            try rfl
          · exact ⟨g.mIdx, Nat.le_refl _, by simp only [hm]; try exact Nat.lt_succ_self _, hfail hnc⟩
        | some cid =>
          rw [hnc] at h
          simp only [] at h
          obtain ⟨ha, hf, hm, -⟩ := graph_new_component_obs cfg { g with oIdx := g.oIdx + 1 }
          by_cases hst : src ≠ tgt
          · rw [if_pos hst] at h
            simp only [Option.some_inj, Prod.mk.injEq] at h
            obtain ⟨hg, hr⟩ := h
            subst hg
            obtain ⟨hc1e, hc1l, hc1f, hc1m⟩ := component_add_node_obs
              (graph_new_component cfg { g with oIdx := g.oIdx + 1 }).2 cid src
            obtain ⟨hc2e, hc2l, hc2f, hc2m⟩ := component_add_node_obs
              (component_add_node (graph_new_component cfg { g with oIdx := g.oIdx + 1 }).2 cid src)
              cid tgt
            have hlen2 : (component_add_node
                (component_add_node (graph_new_component cfg { g with oIdx := g.oIdx + 1 }).2 cid src)
                cid tgt).arena.length = g.arena.length := by
              simp only [hc2l, hc1l, ha]
              try rfl
            obtain ⟨he, hl, hff, hmm⟩ := node_add_out_edge_obs
              (component_add_node
                (component_add_node (graph_new_component cfg { g with oIdx := g.oIdx + 1 }).2 cid src)
                cid tgt) src tgt (by rw [hlen2]; exact hsrc)
            refine ⟨by rw [hl, hlen2], by simp only [hff, hc2f, hc1f, hf]; try rfl,
                    by simp only [hmm, hc2m, hc1m, hm]; try exact Nat.le_succ _,
                    Or.inl ⟨hr.symm, ?_⟩⟩
            simp only [he, hc2e, hc1e]
            show (List.map _ _).sum + 1 = _
            rw [ha]
            try rfl
          · rw [if_neg hst] at h
            simp only [Option.some_inj, Prod.mk.injEq] at h
            obtain ⟨hg, hr⟩ := h
            subst hg
            obtain ⟨hc1e, hc1l, hc1f, hc1m⟩ := component_add_node_obs
              (graph_new_component cfg { g with oIdx := g.oIdx + 1 }).2 cid src
            have hlen2 : (component_add_node
                (graph_new_component cfg { g with oIdx := g.oIdx + 1 }).2 cid src).arena.length =
                g.arena.length := by
              simp only [hc1l, ha]
              try rfl
            obtain ⟨he, hl, hff, hmm⟩ := node_add_out_edge_obs
              (component_add_node (graph_new_component cfg { g with oIdx := g.oIdx + 1 }).2 cid src)
              src tgt (by rw [hlen2]; exact hsrc)
            refine ⟨by rw [hl, hlen2], by simp only [hff, hc1f, hf]; try rfl,
                    by simp only [hmm, hc1m, hm]; try exact Nat.le_succ _,
                    Or.inl ⟨hr.symm, ?_⟩⟩
            simp only [he, hc1e]
            show (List.map _ _).sum + 1 = _
            rw [ha]
            try rfl
      | some ct =>
        rw [h2] at h
        simp only [Option.some_inj, Prod.mk.injEq] at h
        obtain ⟨hg, hr⟩ := h
        subst hg
        obtain ⟨hc1e, hc1l, hc1f, hc1m⟩ := component_add_node_obs
          { g with oIdx := g.oIdx + 1 } ct src
        obtain ⟨he, hl, hff, hmm⟩ := node_add_out_edge_obs
          (component_add_node { g with oIdx := g.oIdx + 1 } ct src) src tgt
          (by rw [hc1l]; exact hsrc)
        refine ⟨by simp only [hl, hc1l]; try rfl, by simp only [hff, hc1f]; try rfl,
                by simp only [hmm, hc1m]; try exact Nat.le_refl _, Or.inl ⟨hr.symm, ?_⟩⟩
        simp only [he, hc1e]
        try rfl
    | some cs =>
      rw [h1] at h
      simp only [] at h
      cases h2 : compOf { g with oIdx := g.oIdx + 1 } tgt with
      | none =>
        rw [h2] at h
        simp only [Option.some_inj, Prod.mk.injEq] at h
        obtain ⟨hg, hr⟩ := h
        subst hg
        obtain ⟨hc1e, hc1l, hc1f, hc1m⟩ := component_add_node_obs
          { g with oIdx := g.oIdx + 1 } cs tgt
        obtain ⟨he, hl, hff, hmm⟩ := node_add_out_edge_obs
          (component_add_node { g with oIdx := g.oIdx + 1 } cs tgt) src tgt
          (by rw [hc1l]; exact hsrc)
        refine ⟨by simp only [hl, hc1l]; try rfl, by simp only [hff, hc1f]; try rfl,
                by simp only [hmm, hc1m]; try exact Nat.le_refl _, Or.inl ⟨hr.symm, ?_⟩⟩
        simp only [he, hc1e]
        try rfl
      | some ct =>
        rw [h2] at h
        simp only [] at h
        by_cases hcc : cs = ct
        · rw [if_pos hcc] at h
          simp only [Option.some_inj, Prod.mk.injEq] at h
          obtain ⟨hg, hr⟩ := h
          subst hg
          obtain ⟨he, hl, hff, hmm⟩ := node_add_out_edge_obs
            { g with oIdx := g.oIdx + 1 } src tgt hsrc
          refine ⟨by simp only [hl]; try rfl, by simp only [hff]; try rfl,
                  by simp only [hmm]; try exact Nat.le_refl _, Or.inl ⟨hr.symm, ?_⟩⟩
          simp only [he]
          try rfl
        · rw [if_neg hcc] at h
          simp only [Option.some_inj, Prod.mk.injEq] at h
          obtain ⟨hg, hr⟩ := h
          subst hg
          obtain ⟨hme, hml, hmf, hmme⟩ := graph_merge_components_obs
            { g with oIdx := g.oIdx + 1 } cs ct
          obtain ⟨he, hl, hff, hmm⟩ := node_add_out_edge_obs
            (graph_merge_components { g with oIdx := g.oIdx + 1 } cs ct).2 src tgt
            (by rw [hml]; exact hsrc)
          refine ⟨by simp only [hl, hml]; try rfl, by simp only [hff, hmf]; try rfl,
                  by simp only [hmm, hmme]; try exact Nat.le_refl _, Or.inl ⟨hr.symm, ?_⟩⟩
          simp only [he, hme]
          try rfl

@[simp] theorem graph_remove_last_node_flags (g : Graph α) (nid : Nat) :
    (graph_remove_last_node g nid).flags = g.flags := rfl

@[simp] theorem graph_remove_last_node_mIdx (g : Graph α) (nid : Nat) :
    (graph_remove_last_node g nid).mIdx = g.mIdx := rfl

theorem mIdx_rollback (X : Graph α) (c : Prop) [Decidable c] (k : Nat) :
    (if c then graph_remove_last_node X k else X).mIdx = X.mIdx := by
  split <;> rfl

theorem add_edge_resolved_obs (cfg : Cfg α) (g0 gb : Graph α) (swapped : Bool) (n1 n2 : Nat)
    (g2 : Graph α) (r : Int)
    (hn1 : n1 < gb.arena.length) (hn2 : n2 < gb.arena.length)
    (he0 : edgeTotal gb = edgeTotal g0) (hf0 : gb.flags = g0.flags) (hm0 : g0.mIdx ≤ gb.mIdx)
    (h : graph_add_edge_resolved cfg gb swapped n1 n2 = some (g2, r)) :
    (r = -1 ∨ r = 0 ∨ r = 1 ∨ r = 2) ∧
    (r = 0 → edgeTotal g2 = edgeTotal g0 ∧
      (hasFlag g0.flags GRAPH_NOLOOP ∨ hasFlag g0.flags GRAPH_NOPARALLEL)) ∧
    (r = 1 → edgeTotal g2 = edgeTotal g0 + 1) ∧
    (r = 2 → edgeTotal g2 = edgeTotal g0 + 2 ∧ hasFlag g0.flags GRAPH_DUAL) ∧
    (r = -1 → mallocFailedBetween cfg g0 g2) := by
  unfold graph_add_edge_resolved at h
  simp only [] at h
  split at h
  case isTrue hloop =>
    split at h
    case isTrue hcomp =>
      cases hnc : (graph_new_component cfg gb).1 with
      | none =>
        rw [hnc] at h
        simp only [Option.some_inj, Prod.mk.injEq] at h
        obtain ⟨hg, hr⟩ := h
        subst hg
        obtain ⟨-, -, hm, hfail⟩ := graph_new_component_obs cfg gb
        refine ⟨Or.inl hr.symm, ?_, ?_, ?_, ?_⟩ <;> intro habs
        · omega
        · omega
        · omega
        · exact ⟨gb.mIdx, hm0, by simp [hm], hfail hnc⟩
      | some cid =>
        rw [hnc] at h
        simp only [Option.some_inj, Prod.mk.injEq] at h
        obtain ⟨hg, hr⟩ := h
        subst hg
        obtain ⟨ha, hf, hm, -⟩ := graph_new_component_obs cfg gb
        obtain ⟨hce, -, -, -⟩ := component_add_node_obs (graph_new_component cfg gb).2 cid n1
        refine ⟨Or.inr (Or.inl hr.symm), ?_, ?_, ?_, ?_⟩ <;> intro habs
        · refine ⟨?_, Or.inl (hf0 ▸ hloop.2)⟩
          rw [hce]
          show (List.map _ _).sum = _
          rw [ha, ← he0]
          rfl
        · omega
        · omega
        · omega
    case isFalse hcomp =>
      simp only [Option.some_inj, Prod.mk.injEq] at h
      obtain ⟨hg, hr⟩ := h
      subst hg
      refine ⟨Or.inr (Or.inl hr.symm), ?_, ?_, ?_, ?_⟩ <;> intro habs
      · exact ⟨he0, Or.inl (hf0 ▸ hloop.2)⟩
      · omega
      · omega
      · omega
  case isFalse hloop =>
    split at h
    case isTrue hpar =>
      simp only [Option.some_inj, Prod.mk.injEq] at h
      obtain ⟨hg, hr⟩ := h
      subst hg
      refine ⟨Or.inr (Or.inl hr.symm), ?_, ?_, ?_, ?_⟩ <;> intro habs
      · exact ⟨he0, Or.inr (hf0 ▸ hpar.1)⟩
      · omega
      · omega
      · omega
    case isFalse hpar =>
      cases hd1 : do_add_edge cfg gb n1 n2 with
      | none => rw [hd1] at h; exact absurd h (by simp)
      | some p1 =>
        obtain ⟨gd, r1⟩ := p1
        rw [hd1] at h
        simp only [] at h
        obtain ⟨hdl, hdf, hdm, hdcase⟩ := do_add_edge_obs cfg gb n1 n2 gd r1 hn1 hd1
        rcases hdcase with ⟨hr1, hde⟩ | ⟨hr1, hde, hdmal⟩
        · subst hr1
          rw [if_neg (by omega)] at h
          split at h
          case isTrue hdual =>
            cases hd2 : do_add_edge cfg gd n2 n1 with
            | none => rw [hd2] at h; exact absurd h (by simp)
            | some p2 =>
              obtain ⟨ge, r2⟩ := p2
              rw [hd2] at h
              simp only [] at h
              obtain ⟨hel, hef, hem, hecase⟩ := do_add_edge_obs cfg gd n2 n1 ge r2
                (by rw [hdl]; exact hn2) hd2
              rcases hecase with ⟨hr2, hee⟩ | ⟨hr2, hee, hemal⟩
              · subst hr2
                rw [if_neg (by omega)] at h
                simp only [Option.some_inj, Prod.mk.injEq] at h
                obtain ⟨hg, hr⟩ := h
                subst hg
                refine ⟨Or.inr (Or.inr (Or.inr hr.symm)), ?_, ?_, ?_, ?_⟩ <;> intro habs
                · omega
                · omega
                · exact ⟨by rw [hee, hde, he0], hf0 ▸ hdf ▸ hdual.1⟩
                · omega
              · subst hr2
                rw [if_pos (by omega)] at h
                simp only [Option.some_inj, Prod.mk.injEq] at h
                obtain ⟨hg, hr⟩ := h
                subst hg
                refine ⟨Or.inl hr.symm, ?_, ?_, ?_, ?_⟩ <;> intro habs
                · omega
                · omega
                · omega
                · obtain ⟨i, hi1, hi2, hi3⟩ := hemal
                  exact ⟨i, by omega, hi2, hi3⟩
          case isFalse hdual =>
            simp only [Option.some_inj, Prod.mk.injEq] at h
            obtain ⟨hg, hr⟩ := h
            subst hg
            refine ⟨Or.inr (Or.inr (Or.inl hr.symm)), ?_, ?_, ?_, ?_⟩ <;> intro habs
            · omega
            · rw [hde, he0]
            · omega
            · omega
        · subst hr1
          rw [if_pos (by omega)] at h
          simp only [Option.some_inj, Prod.mk.injEq] at h
          obtain ⟨hg, hr⟩ := h
          subst hg
          refine ⟨Or.inl hr.symm, ?_, ?_, ?_, ?_⟩ <;> intro habs
          · omega
          · omega
          · omega
          · obtain ⟨i, hi1, hi2, hi3⟩ := hdmal
            refine ⟨i, by omega, ?_, hi3⟩
            rw [mIdx_rollback, mIdx_rollback]
            omega

/-- C4: the return contract of `graph_add_edge`.  Whenever the call
returns (rather than dying in `xmalloc`), the value is one of -1, 0, 1,
2; a 0 return links no edge and arises only under the no-loop or
no-parallel policy; a 1 return links exactly one edge record; a 2 return
links exactly two and only in dual mode; and a -1 return means some
`malloc` call performed during the call failed.  (A failed hash-table
resize is deliberately not an error: the call continues and can still
return 1, which is the concern of C6.) -/
theorem C4_graph_add_edge_return_contract (cfg : Cfg α) (g : Graph α) (s1 s2 : α) :
    match graph_add_edge cfg g s1 s2 with
    | none => True
    | some (g2, r) =>
      (r = -1 ∨ r = 0 ∨ r = 1 ∨ r = 2) ∧
      (r = 0 → edgeTotal g2 = edgeTotal g ∧
        (hasFlag g.flags GRAPH_NOLOOP ∨ hasFlag g.flags GRAPH_NOPARALLEL)) ∧
      (r = 1 → edgeTotal g2 = edgeTotal g + 1) ∧
      (r = 2 → edgeTotal g2 = edgeTotal g + 2 ∧ hasFlag g.flags GRAPH_DUAL) ∧
      (r = -1 → mallocFailedBetween cfg g g2) := by
  cases hres : graph_add_edge cfg g s1 s2 with
  | none => trivial
  | some p =>
    obtain ⟨g2, r⟩ := p
    show (r = -1 ∨ r = 0 ∨ r = 1 ∨ r = 2) ∧
      (r = 0 → edgeTotal g2 = edgeTotal g ∧
        (hasFlag g.flags GRAPH_NOLOOP ∨ hasFlag g.flags GRAPH_NOPARALLEL)) ∧
      (r = 1 → edgeTotal g2 = edgeTotal g + 1) ∧
      (r = 2 → edgeTotal g2 = edgeTotal g + 2 ∧ hasFlag g.flags GRAPH_DUAL) ∧
      (r = -1 → mallocFailedBetween cfg g g2)
    unfold graph_add_edge at hres
    split at hres
    · exact absurd hres (by simp)
    · next gx heq1 =>
        exact absurd rfl ((add_node_internal_obs cfg g s1 false none gx heq1).2.2.2.2.2 rfl)
    · next n1 ga heq1 =>
        obtain ⟨ha1e, ha1l, ha1f, ha1m, ha1in, -⟩ :=
          add_node_internal_obs cfg g s1 false (some n1) ga heq1
        split at hres
        · exact absurd hres (by simp)
        · next gy heq2 =>
            exact absurd rfl ((add_node_internal_obs cfg ga s2 false none gy heq2).2.2.2.2.2 rfl)
        · next n2 gb heq2 =>
            obtain ⟨ha2e, ha2l, ha2f, ha2m, ha2in, -⟩ :=
              add_node_internal_obs cfg ga s2 false (some n2) gb heq2
            have hn1 : n1 < gb.arena.length := lt_of_lt_of_le (ha1in n1 rfl) ha2l
            have hn2 : n2 < gb.arena.length := ha2in n2 rfl
            exact add_edge_resolved_obs cfg g gb _ _ _ g2 r
              (by split <;> first | exact hn1 | exact hn2)
              (by split <;> first | exact hn1 | exact hn2)
              (ha2e.trans ha1e) (ha2f.trans ha1f) (le_trans ha1m ha2m) hres

/-- Witness for C4: the contract instantiated on a concrete insertion
into the empty graph. -/
theorem C4_witness :
    match graph_add_edge cfgN (emptyGraph 0) 1 2 with
    | none => True
    | some (g2, r) =>
      (r = -1 ∨ r = 0 ∨ r = 1 ∨ r = 2) ∧
      (r = 0 → edgeTotal g2 = edgeTotal (emptyGraph 0) ∧
        (hasFlag (emptyGraph 0).flags GRAPH_NOLOOP ∨
         hasFlag (emptyGraph 0).flags GRAPH_NOPARALLEL)) ∧
      (r = 1 → edgeTotal g2 = edgeTotal (emptyGraph 0) + 1) ∧
      (r = 2 → edgeTotal g2 = edgeTotal (emptyGraph 0) + 2 ∧
        hasFlag (emptyGraph 0).flags GRAPH_DUAL) ∧
      (r = -1 → mallocFailedBetween cfgN (emptyGraph 0) g2) :=
  C4_graph_add_edge_return_contract cfgN (emptyGraph 0) 1 2

theorem graph_alloc_node_isSome (cfg : Cfg α) (g : Graph α) (rec : NodeRec α)
    (hob : cfg.obstackOk g.oIdx = true) :
    graph_alloc_node cfg g rec ≠ none := by
  unfold graph_alloc_node
  rw [hob]
  simp

theorem add_node_internal_ne_none (cfg : Cfg α) (g : Graph α) (x : α) (create : Bool)
    (hob : ∀ i, cfg.obstackOk i = true) :
    graph_add_node_internal cfg g x create ≠ none := by
  intro hnone
  unfold graph_add_node_internal at hnone
  simp only [] at hnone
  cases hl : bucketLookup cfg g x with
  | some nid =>
    rw [hl] at hnone
    simp at hnone
  | none =>
    rw [hl] at hnone
    simp only [] at hnone
    cases halloc : graph_alloc_node cfg g ⟨x, wrap32 (cfg.hash x), [], 0, 0, none⟩ with
    | none => exact absurd halloc (graph_alloc_node_isSome cfg g _ (hob g.oIdx))
    | some pr =>
      obtain ⟨nid, ga⟩ := pr
      rw [halloc] at hnone
      simp only [] at hnone
      cases create with
      | false => simp at hnone
      | true =>
        simp only [if_true] at hnone
        cases hnc : (graph_new_component cfg
            (setBucket ga (wrap32 (cfg.hash x) &&& ga.hashmask)
              (nid :: getBucket ga (wrap32 (cfg.hash x) &&& ga.hashmask)))).1 with
        | none => rw [hnc] at hnone; simp at hnone
        | some cid => rw [hnc] at hnone; simp at hnone

theorem do_add_edge_ne_none (cfg : Cfg α) (g : Graph α) (src tgt : Nat)
    (hob : ∀ i, cfg.obstackOk i = true) :
    do_add_edge cfg g src tgt ≠ none := by
  intro hnone
  unfold do_add_edge at hnone
  simp only [] at hnone
  rw [hob g.oIdx] at hnone
  simp only [if_true] at hnone
  split at hnone
  · split at hnone
    · split at hnone <;> simp at hnone
    · simp at hnone
  · split at hnone
    · simp at hnone
    · split at hnone <;> simp at hnone

theorem add_edge_resolved_ne_none (cfg : Cfg α) (g : Graph α) (swapped : Bool) (n1 n2 : Nat)
    (hob : ∀ i, cfg.obstackOk i = true) :
    graph_add_edge_resolved cfg g swapped n1 n2 ≠ none := by
  intro hnone
  unfold graph_add_edge_resolved at hnone
  simp only [] at hnone
  split at hnone
  · split at hnone
    · split at hnone <;> simp at hnone
    · simp at hnone
  · split at hnone
    · simp at hnone
    · cases hd1 : do_add_edge cfg g n1 n2 with
      | none => exact absurd hd1 (do_add_edge_ne_none cfg g n1 n2 hob)
      | some p1 =>
        obtain ⟨gd, r1⟩ := p1
        rw [hd1] at hnone
        simp only [] at hnone
        split at hnone
        · simp at hnone
        · split at hnone
          · cases hd2 : do_add_edge cfg gd n2 n1 with
            | none => exact absurd hd2 (do_add_edge_ne_none cfg gd n2 n1 hob)
            | some p2 =>
              obtain ⟨ge, r2⟩ := p2
              rw [hd2] at hnone
              simp only [] at hnone
              split at hnone <;> simp at hnone
          · simp at hnone

@[simp] theorem setBucket_hashmask (g : Graph α) (i : Nat) (b : List Nat) :
    (setBucket g i b).hashmask = g.hashmask := rfl

@[simp] theorem setBucket_resizeThreshold (g : Graph α) (i : Nat) (b : List Nat) :
    (setBucket g i b).resizeThreshold = g.resizeThreshold := rfl

@[simp] theorem setBucket_buckets_length (g : Graph α) (i : Nat) (b : List Nat) :
    (setBucket g i b).buckets.length = g.buckets.length := List.length_set _ _ _

@[simp] theorem component_add_node_hashmask (g : Graph α) (cid nid : Nat) :
    (component_add_node g cid nid).hashmask = g.hashmask := rfl

@[simp] theorem component_add_node_buckets (g : Graph α) (cid nid : Nat) :
    (component_add_node g cid nid).buckets = g.buckets := rfl

@[simp] theorem component_add_node_resizeThreshold (g : Graph α) (cid nid : Nat) :
    (component_add_node g cid nid).resizeThreshold = g.resizeThreshold := rfl

@[simp] theorem graph_remove_last_node_hashmask (g : Graph α) (nid : Nat) :
    (graph_remove_last_node g nid).hashmask = g.hashmask := rfl

@[simp] theorem graph_remove_last_node_resizeThreshold (g : Graph α) (nid : Nat) :
    (graph_remove_last_node g nid).resizeThreshold = g.resizeThreshold := rfl

@[simp] theorem graph_remove_last_node_buckets_length (g : Graph α) (nid : Nat) :
    (graph_remove_last_node g nid).buckets.length = g.buckets.length := by
  show (setBucket g _ _).buckets.length = g.buckets.length
  simp

theorem graph_new_component_table (cfg : Cfg α) (g : Graph α) :
    (graph_new_component cfg g).2.hashmask = g.hashmask ∧
    (graph_new_component cfg g).2.buckets = g.buckets ∧
    (graph_new_component cfg g).2.resizeThreshold = g.resizeThreshold := by
  unfold graph_new_component
  by_cases h : cfg.mallocOk g.mIdx <;> simp [h, appendComp]

theorem graph_alloc_node_no_resize (cfg : Cfg α) (g : Graph α) (rec : NodeRec α)
    (nid : Nat) (ga : Graph α) (hthr : g.resizeThreshold = UINT32_MAX)
    (h : graph_alloc_node cfg g rec = some (nid, ga)) :
    ga.hashmask = g.hashmask ∧ ga.buckets = g.buckets ∧
    ga.resizeThreshold = UINT32_MAX := by
  unfold graph_alloc_node at h
  by_cases hok : cfg.obstackOk g.oIdx
  · simp only [hok, if_true] at h
    rw [if_neg (by
      show ¬ (wrap32 (g.nodeCount + 1) > g.resizeThreshold)
      rw [hthr]
      have : wrap32 (g.nodeCount + 1) < 4294967296 := Nat.mod_lt _ (by norm_num)
      unfold UINT32_MAX
      omega)] at h
    simp only [Option.some_inj, Prod.mk.injEq] at h
    obtain ⟨-, h2⟩ := h
    subst h2
    exact ⟨rfl, rfl, hthr⟩
  · simp [hok] at h

/-- C6 (amended): when growing the bucket array fails, the index keeps
working with its current buckets at a higher average chain length, but
the resize is not retried on a later insertion: the threshold is
saturated to `UINT32_MAX`, which the 32-bit node count can never exceed,
so every subsequent insertion leaves the table (mask, bucket count,
threshold) unchanged; and any identifier whose chain scan succeeds is
still returned unchanged. -/
theorem C6_resize_disabled_after_failure (cfg : Cfg α) (g : Graph α) :
    (∀ (x : α) (c : Bool) (res : Option Nat) (g2 : Graph α),
       g.resizeThreshold = UINT32_MAX →
       graph_add_node_internal cfg g x c = some (res, g2) →
       g2.hashmask = g.hashmask ∧ g2.buckets.length = g.buckets.length ∧
       g2.resizeThreshold = UINT32_MAX) ∧
    (∀ (x : α) (c : Bool) (nid : Nat),
       bucketLookup cfg g x = some nid →
       graph_add_node_internal cfg g x c = some (some nid, g)) := by
  constructor
  · intro x c res g2 hthr h
    unfold graph_add_node_internal at h
    try simp only [] at h
    split at h
    · next nid heq =>
        simp only [Option.some_inj, Prod.mk.injEq] at h
        obtain ⟨-, h2⟩ := h
        subst h2
        exact ⟨rfl, rfl, hthr⟩
    · next heq =>
        split at h
        · exact absurd h (by simp)
        · next nid ga heqa =>
            obtain ⟨hh, hb, ht⟩ := graph_alloc_node_no_resize cfg g _ nid ga hthr heqa
            try simp only [] at h
            split at h
            · split at h
              · next heqc =>
                  simp only [Option.some_inj, Prod.mk.injEq] at h
                  obtain ⟨-, h2⟩ := h
                  subst h2
                  obtain ⟨hch, hcb, hct⟩ := graph_new_component_table cfg
                    (setBucket ga (wrap32 (cfg.hash x) &&& ga.hashmask)
                      (nid :: getBucket ga (wrap32 (cfg.hash x) &&& ga.hashmask)))
                  refine ⟨?_, ?_, ?_⟩
                  · simp only [graph_remove_last_node_hashmask, hch, setBucket_hashmask]
                    exact hh
                  · rw [graph_remove_last_node_buckets_length, hcb]
                    rw [setBucket_buckets_length]
                    rw [hb]
                  · simp only [graph_remove_last_node_resizeThreshold, hct,
                      setBucket_resizeThreshold]
                    exact ht
              · next cid heqc =>
                  simp only [Option.some_inj, Prod.mk.injEq] at h
                  obtain ⟨-, h2⟩ := h
                  subst h2
                  obtain ⟨hch, hcb, hct⟩ := graph_new_component_table cfg
                    (setBucket ga (wrap32 (cfg.hash x) &&& ga.hashmask)
                      (nid :: getBucket ga (wrap32 (cfg.hash x) &&& ga.hashmask)))
                  refine ⟨?_, ?_, ?_⟩
                  · simp only [component_add_node_hashmask, hch, setBucket_hashmask]
                    exact hh
                  · rw [show (component_add_node _ cid nid).buckets.length =
                        _ from congrArg List.length (component_add_node_buckets _ cid nid)]
                    rw [hcb, setBucket_buckets_length, hb]
                  · simp only [component_add_node_resizeThreshold, hct,
                      setBucket_resizeThreshold]
                    exact ht
            · simp only [Option.some_inj, Prod.mk.injEq] at h
              obtain ⟨-, h2⟩ := h
              subst h2
              refine ⟨by simp [hh], by simp [hb], by simp [ht]⟩
  · intro x c nid h
    unfold graph_add_node_internal
    try simp only []
    split
    · next nid2 heq =>
        have h3 := h.symm.trans heq
        simp only [Option.some_inj] at h3
        rw [h3]
    · next heq =>
        rw [h] at heq
        exact absurd heq (by simp)

/-- Witness for C6's amended theorem: inserting identifier 5 into the
empty saturated-threshold graph keeps the 16 buckets, mask 15 and the
saturated threshold, and identifier 3, already present in a one-node
saturated graph, is found and returned with the graph unchanged. -/
theorem C6_amended_witness :
    gSat.resizeThreshold = UINT32_MAX ∧
    (graph_add_node_internal cfgN gSat 5 true).map
        (fun pr => (pr.2.hashmask, pr.2.buckets.length, pr.2.resizeThreshold)) =
      some (15, 16, UINT32_MAX) ∧
    graph_add_node_internal cfgN oneNodeGraph 3 true = some (some 0, oneNodeGraph) := by
  refine ⟨rfl, ?_, ?_⟩
  · obtain ⟨pr, hE⟩ : ∃ pr, graph_add_node_internal cfgN gSat 5 true = some pr := by
      cases hh : graph_add_node_internal cfgN gSat 5 true with
      | none => exact absurd hh (add_node_internal_ne_none cfgN gSat 5 true (fun _ => rfl))
      | some pr => exact ⟨pr, rfl⟩
    obtain ⟨res, g2⟩ := pr
    have h3 := (C6_resize_disabled_after_failure cfgN gSat).1 5 true res g2 rfl hE
    rw [hE]
    show some (g2.hashmask, g2.buckets.length, g2.resizeThreshold) = _
    rw [h3.1, h3.2.1, h3.2.2]
    rfl
  · exact (C6_resize_disabled_after_failure cfgN oneNodeGraph).2 3 true 0 (by decide)

theorem add_node_internal_found (cfg : Cfg α) (g : Graph α) (x : α) (c : Bool) (nid : Nat)
    (h : bucketLookup cfg g x = some nid) :
    graph_add_node_internal cfg g x c = some (some nid, g) := by
  unfold graph_add_node_internal
  try simp only []
  split
  · next nid2 heq =>
      have h3 := h.symm.trans heq
      simp only [Option.some_inj] at h3
      rw [h3]
  · next heq =>
      rw [h] at heq
      exact absurd heq (by simp)

theorem length_foldl_pres (u : List γ) (init : List δ) (step : List δ → γ → List δ)
    (hstep : ∀ nb c, (step nb c).length = nb.length) :
    (u.foldl step init).length = init.length := by
  induction u generalizing init with
  | nil => rfl
  | cons a u ih => rw [List.foldl_cons, ih, hstep]

theorem graph_attempt_hash_resize_table (cfg : Cfg α) (g : Graph α)
    (hbl : g.buckets.length = g.hashmask + 1) :
    (graph_attempt_hash_resize cfg g).buckets.length =
      (graph_attempt_hash_resize cfg g).hashmask + 1 ∧
    (graph_attempt_hash_resize cfg g).comps = g.comps := by
  unfold graph_attempt_hash_resize
  by_cases h : cfg.mallocOk g.mIdx
  · simp only [h, if_true]
    refine ⟨?_, by trivial⟩
    show (g.buckets.foldl _ (List.replicate (2 * (g.hashmask + 1)) [])).length = _
    rw [length_foldl_pres]
    · simp
      omega
    · intro nb c
      exact length_foldl_pres c nb _ (fun nb2 c2 => List.length_set _ _ _)
  · simp [h, hbl]

theorem graph_alloc_node_more (cfg : Cfg α) (g : Graph α) (rec : NodeRec α) (nid : Nat)
    (ga : Graph α) (hbl : g.buckets.length = g.hashmask + 1)
    (h : graph_alloc_node cfg g rec = some (nid, ga)) :
    ga.buckets.length = ga.hashmask + 1 ∧ ga.comps = g.comps := by
  unfold graph_alloc_node at h
  by_cases hok : cfg.obstackOk g.oIdx
  · simp only [hok, if_true] at h
    split at h
    · simp only [Option.some_inj, Prod.mk.injEq] at h
      obtain ⟨-, h2⟩ := h
      subst h2
      exact graph_attempt_hash_resize_table cfg _ (by simpa using hbl)
    · simp only [Option.some_inj, Prod.mk.injEq] at h
      obtain ⟨-, h2⟩ := h
      subst h2
      exact ⟨by simpa using hbl, rfl⟩
  · simp [hok] at h

theorem add_node_internal_fresh (cfg : Cfg α) (g : Graph α) (x : α)
    (hl : bucketLookup cfg g x = none) (hbl : g.buckets.length = g.hashmask + 1)
    (res : Option Nat) (g1 : Graph α)
    (h : graph_add_node_internal cfg g x false = some (res, g1)) :
    res = some g.arena.length ∧
    nodeAt g1 g.arena.length = some ⟨x, wrap32 (cfg.hash x), [], 0, 0, none⟩ ∧
    bucketLookup cfg g1 x = some g.arena.length ∧
    g1.comps = g.comps ∧ g1.flags = g.flags ∧
    g1.buckets.length = g1.hashmask + 1 := by
  unfold graph_add_node_internal at h
  try simp only [] at h
  rw [hl] at h
  try simp only [] at h
  cases halloc : graph_alloc_node cfg g ⟨x, wrap32 (cfg.hash x), [], 0, 0, none⟩ with
  | none => rw [halloc] at h; simp at h
  | some pr =>
    obtain ⟨nid, ga⟩ := pr
    rw [halloc] at h
    simp only [Bool.false_eq_true, if_false, Option.some_inj, Prod.mk.injEq] at h
    obtain ⟨h1, h2⟩ := h
    obtain ⟨hnid, hga, hgf, -⟩ := graph_alloc_node_obs cfg g _ nid ga halloc
    obtain ⟨htab, hcomps⟩ := graph_alloc_node_more cfg g _ nid ga hbl halloc
    subst hnid
    subst h2
    have hbi : wrap32 (cfg.hash x) &&& ga.hashmask < ga.buckets.length := by
      rw [htab]
      exact Nat.lt_succ_of_le Nat.and_le_right
    refine ⟨h1.symm, ?_, ?_, hcomps, by simpa using hgf, by simpa using htab⟩
    · show ga.arena[g.arena.length]? = _
      rw [hga]
      exact List.getElem?_concat_length _ _
    · unfold bucketLookup getBucket
      simp only [setBucket_hashmask]
      show ((((setBucket ga _ _).buckets)[wrap32 (cfg.hash x) &&& ga.hashmask]?).getD []).find?
        _ = _
      unfold setBucket
      simp only [List.getElem?_set, if_pos rfl, hbi, if_true]
      simp only [Option.getD_some]
      show List.find? _ (g.arena.length :: _) = _
      rw [List.find?_cons_of_pos]
      simp only [setBucket_arena, hga, List.getElem?_concat_length]
      simp


theorem graph_new_component_success (cfg : Cfg α) (g : Graph α)
    (hok : cfg.mallocOk g.mIdx = true) :
    graph_new_component cfg g =
      (some g.nextCompId,
       { g with mIdx := g.mIdx + 1,
                comps := g.comps ++ [(g.nextCompId, (⟨[], 0, 0⟩ : CompRec))],
                nextCompId := g.nextCompId + 1 }) := by
  unfold graph_new_component appendComp
  rw [hok]
  rfl

theorem component_add_node_edgeCounts (g : Graph α) (cid nid : Nat) :
    (component_add_node g cid nid).comps.map (fun p => (p.1, p.2.edgeCount)) =
      g.comps.map (fun p => (p.1, p.2.edgeCount)) := by
  show (g.comps.map (fun p =>
      if p.1 = cid then (p.1, { p.2 with nodes := p.2.nodes ++ [nid],
                                         nodeCount := p.2.nodeCount + 1 }) else p)).map
      (fun p => (p.1, p.2.edgeCount)) = g.comps.map (fun p => (p.1, p.2.edgeCount))
  induction g.comps with
  | nil => rfl
  | cons p l ih =>
    simp only [List.map_cons]
    rw [ih]
    congr 1
    by_cases hp : p.1 = cid <;> simp [hp]

theorem nodeAt_component_add_node (g : Graph α) (cid nid : Nat) :
    nodeAt (component_add_node g cid nid) nid =
      (nodeAt g nid).map (fun n => { n with comp := some cid }) := by
  show (listModify g.arena nid _)[nid]? = (g.arena[nid]?).map _
  exact getElem?_listModify_self _ _ _

theorem graph_add_edge_ne_none (cfg : Cfg α) (g : Graph α) (s1 s2 : α)
    (hob : ∀ i, cfg.obstackOk i = true) :
    graph_add_edge cfg g s1 s2 ≠ none := by
  intro hc
  unfold graph_add_edge at hc
  split at hc
  · next heq => exact add_node_internal_ne_none cfg g s1 false hob heq
  · next g2 heq => simp at hc
  · next n1 g2 heq =>
    split at hc
    · next heq2 => exact add_node_internal_ne_none cfg g2 s2 false hob heq2
    · next g3 heq2 => simp at hc
    · next n2 g3 heq2 =>
      try simp only [] at hc
      exact add_edge_resolved_ne_none cfg g3 _ _ _ hob hc

/-- C9: confirmed (for runs where allocation succeeds).  With *no-loop*
set, `graph_add_edge(x, x)` resolves both endpoints to the same node,
takes the self-edge branch, and returns 0; the per-component edge
counters are untouched (at most a fresh empty component with edge count
0 is appended), and afterwards the node holding `x` has a non-NULL
component (a singleton is created exactly when it had none). -/
theorem C9_noloop_self_edge (cfg : Cfg α) (g : Graph α) (x : α)
    (hnl : hasFlag g.flags GRAPH_NOLOOP)
    (hbl : g.buckets.length = g.hashmask + 1)
    (hma : ∀ i, cfg.mallocOk i = true)
    (hob : ∀ i, cfg.obstackOk i = true) :
    (graph_add_edge cfg g x x).isSome = true ∧
    ∀ g2 r, graph_add_edge cfg g x x = some (g2, r) →
      r = 0 ∧
      (g2.comps.map (fun p => (p.1, p.2.edgeCount)) =
         g.comps.map (fun p => (p.1, p.2.edgeCount)) ∨
       ∃ c, g2.comps.map (fun p => (p.1, p.2.edgeCount)) =
         g.comps.map (fun p => (p.1, p.2.edgeCount)) ++ [(c, 0)]) ∧
      ∃ nid n, nodeAt g2 nid = some n ∧ n.ident = x ∧ n.comp ≠ none := by
  refine ⟨?_, ?_⟩
  · cases hE : graph_add_edge cfg g x x with
    | none => exact absurd hE (graph_add_edge_ne_none cfg g x x hob)
    | some pr => rfl
  · intro g2 r h
    unfold graph_add_edge at h
    split at h
    · next heq => exact absurd heq (add_node_internal_ne_none cfg g x false hob)
    · next g' heq =>
      have h6 := (add_node_internal_obs cfg g x false none g' heq).2.2.2.2.2
      exact absurd rfl (h6 rfl)
    · next n1 g' heq =>
      split at h
      · next heq2 => exact absurd heq2 (add_node_internal_ne_none cfg g' x false hob)
      · next g'' heq2 =>
        have h6 := (add_node_internal_obs cfg g' x false none g'' heq2).2.2.2.2.2
        exact absurd rfl (h6 rfl)
      · next n2 g'' heq2 =>
        cases hl : bucketLookup cfg g x with
        | some nid =>
          rw [add_node_internal_found cfg g x false nid hl] at heq
          simp only [Option.some_inj, Prod.mk.injEq] at heq
          obtain ⟨hn1, hg'⟩ := heq
          subst hn1
          subst hg'
          rw [add_node_internal_found cfg g x false nid hl] at heq2
          simp only [Option.some_inj, Prod.mk.injEq] at heq2
          obtain ⟨hn2, hg''⟩ := heq2
          subst hn2
          subst hg''
          simp only [ite_self] at h
          unfold graph_add_edge_resolved at h
          rw [if_pos ⟨rfl, hnl⟩] at h
          by_cases hcomp : compOf g nid = none
          · rw [if_pos hcomp] at h
            rw [graph_new_component_success cfg g (hma g.mIdx)] at h
            simp only [] at h
            simp only [Option.some_inj, Prod.mk.injEq] at h
            obtain ⟨hg2, hr⟩ := h
            subst hg2
            subst hr
            refine ⟨rfl, ?_, ?_⟩
            · right
              refine ⟨g.nextCompId, ?_⟩
              rw [component_add_node_edgeCounts]
              show (g.comps ++ [(g.nextCompId, (⟨[], 0, 0⟩ : CompRec))]).map _ = _
              rw [List.map_append]
              rfl
            · obtain ⟨n, harena, hident, -, -⟩ := bucketLookup_some cfg g x nid hl
              refine ⟨nid, { n with comp := some g.nextCompId }, ?_, hident, by simp⟩
              rw [nodeAt_component_add_node]
              show (g.arena[nid]?).map _ = _
              rw [harena]
              rfl
          · rw [if_neg hcomp] at h
            simp only [Option.some_inj, Prod.mk.injEq] at h
            obtain ⟨hg2, hr⟩ := h
            subst hg2
            subst hr
            refine ⟨rfl, Or.inl rfl, ?_⟩
            obtain ⟨n, harena, hident, -, -⟩ := bucketLookup_some cfg g x nid hl
            refine ⟨nid, n, harena, hident, ?_⟩
            intro hcn
            apply hcomp
            show (g.arena[nid]?).bind _ = none
            rw [harena]
            simp [hcn]
        | none =>
          obtain ⟨hres, hnode, hlook2, hcomps1, hflags1, htab1⟩ :=
            add_node_internal_fresh cfg g x hl hbl (some n1) g' heq
          simp only [Option.some_inj] at hres
          subst hres
          rw [add_node_internal_found cfg g' x false g.arena.length hlook2] at heq2
          simp only [Option.some_inj, Prod.mk.injEq] at heq2
          obtain ⟨hn2, hg''⟩ := heq2
          subst hn2
          subst hg''
          simp only [ite_self] at h
          have hnl' : hasFlag g'.flags GRAPH_NOLOOP := by rw [hflags1]; exact hnl
          unfold graph_add_edge_resolved at h
          rw [if_pos ⟨rfl, hnl'⟩] at h
          have hcomp' : compOf g' g.arena.length = none := by
            show (nodeAt g' g.arena.length).bind _ = none
            rw [hnode]
            rfl
          rw [if_pos hcomp'] at h
          rw [graph_new_component_success cfg g' (hma g'.mIdx)] at h
          simp only [] at h
          simp only [Option.some_inj, Prod.mk.injEq] at h
          obtain ⟨hg2, hr⟩ := h
          subst hg2
          subst hr
          refine ⟨rfl, ?_, ?_⟩
          · right
            refine ⟨g'.nextCompId, ?_⟩
            rw [component_add_node_edgeCounts]
            show (g'.comps ++ [(g'.nextCompId, (⟨[], 0, 0⟩ : CompRec))]).map _ = _
            rw [List.map_append, hcomps1]
            rfl
          · refine ⟨g.arena.length, ⟨x, wrap32 (cfg.hash x), [], 0, 0, some g'.nextCompId⟩,
              ?_, rfl, by simp⟩
            rw [nodeAt_component_add_node]
            show (nodeAt g' g.arena.length).map _ = _
            rw [hnode]
            rfl

/-- Witness for C9 at a concrete input: in the empty no-loop graph,
`add_edge(0, 0)` completes and returns 0. -/
theorem C9_witness :
    (graph_add_edge cfgN (emptyGraph GRAPH_NOLOOP) 0 0).isSome = true ∧
    (graph_add_edge cfgN (emptyGraph GRAPH_NOLOOP) 0 0).map (fun pr => pr.2) = some 0 := by
  have h := C9_noloop_self_edge cfgN (emptyGraph GRAPH_NOLOOP) 0 (by decide) (by decide)
    (fun _ => rfl) (fun _ => rfl)
  refine ⟨h.1, ?_⟩
  cases hE : graph_add_edge cfgN (emptyGraph GRAPH_NOLOOP) 0 0 with
  | none =>
    have h1 := h.1
    rw [hE] at h1
    simp at h1
  | some pr =>
    obtain ⟨g2, r⟩ := pr
    have hr := (h.2 g2 r hE).1
    show some r = some 0
    rw [hr]

theorem insertSorted_mem [LinearOrder V] (l : List V) (x : V) (s : List V)
    (h : insertSorted l x = some s) : ∀ w, w ∈ s ↔ w = x ∨ w ∈ l := by
  induction l generalizing s with
  | nil =>
    simp only [insertSorted, Option.some_inj] at h
    subst h
    intro w
    simp
  | cons y l ih =>
    unfold insertSorted at h
    by_cases hxy : x < y
    · rw [if_pos hxy] at h
      simp only [Option.some_inj] at h
      subst h
      intro w
      simp
    · rw [if_neg hxy] at h
      by_cases hyx : y < x
      · rw [if_pos hyx] at h
        cases hrec : insertSorted l x with
        | none => rw [hrec] at h; simp at h
        | some t =>
          rw [hrec] at h
          simp only [Option.map_some', Option.some_inj] at h
          subst h
          intro w
          rw [List.mem_cons, List.mem_cons, ih t hrec w]
          tauto
      · rw [if_neg hyx] at h
        exact absurd h (by simp)

theorem foldlM_insertSorted_mem [LinearOrder V] (l acc s : List V)
    (h : List.foldlM insertSorted acc l = some s) : ∀ w, w ∈ s ↔ w ∈ acc ∨ w ∈ l := by
  induction l generalizing acc with
  | nil =>
    simp at h
    subst h
    intro w
    simp
  | cons x l ih =>
    rw [List.foldlM_cons] at h
    cases hins : insertSorted acc x with
    | none => rw [hins] at h; simp at h
    | some t =>
      rw [hins] at h
      simp only [Option.bind_eq_bind, Option.some_bind] at h
      intro w
      rw [ih t h w, insertSorted_mem acc x t hins w, List.mem_cons]
      tauto

theorem buildSorted_mem [LinearOrder V] (l s : List V) (h : buildSorted l = some s) :
    ∀ w, w ∈ s ↔ w ∈ l := by
  intro w
  have := foldlM_insertSorted_mem l [] s h w
  simpa using this

theorem BKInv_congr (G : CliqueGraph V) [LinearOrder V] (dom R P' P X : List V)
    (hP : ∀ w, w ∈ P' ↔ w ∈ P) (hinv : BKInv G dom R P X) : BKInv G dom R P' X := by
  obtain ⟨h1, h2, h3, h4, h5, h6, h7⟩ := hinv
  refine ⟨h1, h2, fun w hw => h3 w ((hP w).mp hw), h4, ?_, h6, ?_⟩
  · intro w hw u hu
    rcases hw with hw | hw
    · exact h5 w (Or.inl ((hP w).mp hw)) u hu
    · exact h5 w (Or.inr hw) u hu
  · intro w hwdom hwnot hadj
    rcases h7 w hwdom hwnot hadj with hc | hc
    · exact Or.inl ((hP w).mpr hc)
    · exact Or.inr hc

theorem BKInv_step (G : CliqueGraph V) [LinearOrder V] (dom R stillP rest X : List V)
    (v : V) (nv newP : List V)
    (Hsym : ∀ u ∈ dom, ∀ w ∈ dom, adjb G u w = adjb G w u)
    (Hirr : ∀ u ∈ dom, adjb G u u = false)
    (hinv : BKInv G dom R (stillP ++ v :: rest) X)
    (hnv : ∀ w, w ∈ nv ↔ w ∈ G.edges v)
    (hnP : ∀ w, w ∈ newP ↔ ((w ∈ stillP ∧ w ∈ nv) ∨ (w ∈ rest ∧ w ∈ nv))) :
    BKInv G dom (R ++ [v]) newP (nv.filter (fun w => decide (w ∈ X))) := by
  obtain ⟨h1, h2, h3, h4, h5, h6, h7⟩ := hinv
  have hvP : v ∈ stillP ++ v :: rest := by simp
  have hvdom : v ∈ dom := h3 v hvP
  have hvadjR : ∀ u ∈ R, adjb G u v = true := fun u hu => h5 v (Or.inl hvP) u hu
  have hvnotR : v ∉ R := by
    intro hvR
    have hc := hvadjR v hvR
    rw [Hirr v hvdom] at hc
    exact Bool.false_ne_true hc
  have hXmem : ∀ w, w ∈ nv.filter (fun w => decide (w ∈ X)) ↔ (w ∈ nv ∧ w ∈ X) := by
    intro w
    simp [List.mem_filter]
  refine ⟨?_, ?_, ?_, ?_, ?_, ?_, ?_⟩
  · rw [List.nodup_append]
    refine ⟨h1, List.nodup_singleton v, ?_⟩
    intro a ha hav
    simp only [List.mem_singleton] at hav
    subst hav
    exact hvnotR ha
  · intro w hw
    rcases List.mem_append.mp hw with hw | hw
    · exact h2 w hw
    · simp only [List.mem_singleton] at hw
      subst hw
      exact hvdom
  · intro w hw
    rcases (hnP w).mp hw with ⟨hs, -⟩ | ⟨hr, -⟩
    · exact h3 w (by simp [hs])
    · exact h3 w (by simp [hr])
  · intro w hw
    exact h4 w ((hXmem w).mp hw).2
  · intro w hw u hu
    have hwnv : w ∈ nv := by
      rcases hw with hw | hw
      · rcases (hnP w).mp hw with ⟨-, hn⟩ | ⟨-, hn⟩ <;> exact hn
      · exact ((hXmem w).mp hw).1
    have hwPX : w ∈ stillP ++ v :: rest ∨ w ∈ X := by
      rcases hw with hw | hw
      · rcases (hnP w).mp hw with ⟨hs, -⟩ | ⟨hr, -⟩
        · exact Or.inl (by simp [hs])
        · exact Or.inl (by simp [hr])
      · exact Or.inr ((hXmem w).mp hw).2
    rcases List.mem_append.mp hu with hu | hu
    · exact h5 w hwPX u hu
    · simp only [List.mem_singleton] at hu
      subst hu
      unfold adjb
      exact decide_eq_true ((hnv w).mp hwnv)
  · intro u hu w hw hne
    rcases List.mem_append.mp hu with hu | hu <;> rcases List.mem_append.mp hw with hw | hw
    · exact h6 u hu w hw hne
    · simp only [List.mem_singleton] at hw
      rw [hw]
      exact hvadjR u hu
    · simp only [List.mem_singleton] at hu
      rw [hu, Hsym v hvdom w (h2 w hw)]
      exact hvadjR w hw
    · simp only [List.mem_singleton] at hu hw
      exact absurd (hu.trans hw.symm) hne
  · intro w hwdom hwnot hadj
    have hadjR : ∀ u ∈ R, adjb G u w = true := fun u hu => hadj u (by simp [hu])
    have hvw : adjb G v w = true := hadj v (by simp)
    have hwnv : w ∈ nv := by
      refine (hnv w).mpr ?_
      unfold adjb at hvw
      exact of_decide_eq_true hvw
    have hwnotR : w ∉ R := fun hc => hwnot (by simp [hc])
    have hwne : w ≠ v := fun hc => hwnot (by simp [hc])
    rcases h7 w hwdom hwnotR hadjR with hP | hX
    · rcases List.mem_append.mp hP with hs | hvr
      · exact Or.inl ((hnP w).mpr (Or.inl ⟨hs, hwnv⟩))
      · rcases List.mem_cons.mp hvr with he | hr
        · exact absurd he hwne
        · exact Or.inl ((hnP w).mpr (Or.inr ⟨hr, hwnv⟩))
    · exact Or.inr ((hXmem w).mpr ⟨hwnv, hX⟩)

theorem BKInv_retire (G : CliqueGraph V) [LinearOrder V] (dom R stillP rest X : List V)
    (v : V) (X2 : List V)
    (hinv : BKInv G dom R (stillP ++ v :: rest) X)
    (hX2 : ∀ w, w ∈ X2 ↔ w = v ∨ w ∈ X) :
    BKInv G dom R (stillP ++ rest) X2 := by
  obtain ⟨h1, h2, h3, h4, h5, h6, h7⟩ := hinv
  have hsub : ∀ w, w ∈ stillP ++ rest → w ∈ stillP ++ v :: rest := by
    intro w hw
    rcases List.mem_append.mp hw with hw | hw <;> simp [hw]
  refine ⟨h1, h2, fun w hw => h3 w (hsub w hw), ?_, ?_, h6, ?_⟩
  · intro w hw
    rcases (hX2 w).mp hw with he | hX
    · subst he
      exact h3 w (by simp)
    · exact h4 w hX
  · intro w hw u hu
    rcases hw with hw | hw
    · exact h5 w (Or.inl (hsub w hw)) u hu
    · rcases (hX2 w).mp hw with he | hX
      · subst he
        exact h5 w (Or.inl (by simp)) u hu
      · exact h5 w (Or.inr hX) u hu
  · intro w hwdom hwnot hadj
    rcases h7 w hwdom hwnot hadj with hP | hX
    · rcases List.mem_append.mp hP with hs | hvr
      · exact Or.inl (by simp [hs])
      · rcases List.mem_cons.mp hvr with he | hr
        · exact Or.inr ((hX2 w).mpr (Or.inl he))
        · exact Or.inl (by simp [hr])
    · exact Or.inr ((hX2 w).mpr (Or.inr hX))

theorem BKloop_sound (G : CliqueGraph V) [LinearOrder V]
    (bk : List V → List V → List V → Option (Int × List (List V)))
    (dom : List V)
    (Hsym : ∀ u ∈ dom, ∀ w ∈ dom, adjb G u w = adjb G w u)
    (Hirr : ∀ u ∈ dom, adjb G u u = false)
    (hbk : ∀ R' P' X' ret' reps', BKInv G dom R' P' X' →
        bk R' P' X' = some (ret', reps') → ∀ l ∈ reps', IsMaximalClique G dom l)
    (R : List V) (pivot : V) (rest : List V) :
    ∀ (stillP X : List V) (ret : Int) (reps : List (List V)),
      BKInv G dom R (stillP ++ rest) X →
      BKloop G bk R pivot stillP X rest = some (ret, reps) →
      ∀ l ∈ reps, IsMaximalClique G dom l := by
  induction rest with
  | nil =>
    intro stillP X ret reps hinv h l hl
    unfold BKloop at h
    simp only [Option.some_inj, Prod.mk.injEq] at h
    obtain ⟨-, hreps⟩ := h
    subst hreps
    simp at hl
  | cons v rest ih =>
    intro stillP X ret reps hinv h
    unfold BKloop at h
    by_cases hpv : adjb G pivot v = true
    · rw [if_pos hpv] at h
      cases hins : insertSorted stillP v with
      | none => rw [hins] at h; simp at h
      | some s =>
        rw [hins] at h
        try simp only [] at h
        refine ih s X ret reps ?_ h
        refine BKInv_congr G dom R (s ++ rest) (stillP ++ v :: rest) X ?_ hinv
        intro w
        simp only [List.mem_append, insertSorted_mem stillP v s hins w, List.mem_cons]
        tauto
    · rw [if_neg hpv] at h
      split at h
      · simp at h
      · next nv hnveq =>
        split at h
        · simp at h
        · next newP hnPeq =>
          try simp only [] at h
          split at h
          · simp at h
          · next ret1 reps1 hcall =>
            have hmax1 : ∀ l ∈ reps1, IsMaximalClique G dom l := by
              refine hbk (R ++ [v]) newP _ ret1 reps1 ?_ hcall
              refine BKInv_step G dom R stillP rest X v nv newP Hsym Hirr hinv
                (buildSorted_mem _ nv hnveq) ?_
              intro w
              rw [buildSorted_mem _ newP hnPeq w]
              simp [List.mem_append, List.mem_filter]
            by_cases hret : ret1 ≠ 0
            · rw [if_pos hret] at h
              simp only [Option.some_inj, Prod.mk.injEq] at h
              obtain ⟨-, hreps⟩ := h
              subst hreps
              exact hmax1
            · rw [if_neg hret] at h
              split at h
              · simp at h
              · next X2 hXins =>
                split at h
                · simp at h
                · next r2 reps2 hrec =>
                  simp only [Option.some_inj, Prod.mk.injEq] at h
                  obtain ⟨-, hreps⟩ := h
                  subst hreps
                  intro l hl
                  rcases List.mem_append.mp hl with hl | hl
                  · exact hmax1 l hl
                  · refine ih stillP X2 r2 reps2 ?_ hrec l hl
                    exact BKInv_retire G dom R stillP rest X v X2 hinv
                      (insertSorted_mem X v X2 hXins)

theorem BronKerbosch_sound (G : CliqueGraph V) [LinearOrder V] (cb : List V → Int)
    (dom : List V)
    (Hsym : ∀ u ∈ dom, ∀ w ∈ dom, adjb G u w = adjb G w u)
    (Hirr : ∀ u ∈ dom, adjb G u u = false) :
    ∀ (fuel : Nat) (R P X : List V) (ret : Int) (reps : List (List V)),
      BKInv G dom R P X →
      BronKerbosch G cb fuel R P X = some (ret, reps) →
      ∀ l ∈ reps, IsMaximalClique G dom l := by
  intro fuel
  induction fuel with
  | zero =>
    intro R P X ret reps hinv h
    exact absurd h (by simp [BronKerbosch])
  | succ fuel ih =>
    intro R P X ret reps hinv h
    cases P with
    | nil =>
      unfold BronKerbosch at h
      try simp only [] at h
      by_cases hX : X.isEmpty = true
      · rw [if_pos hX] at h
        simp only [Option.some_inj, Prod.mk.injEq] at h
        obtain ⟨-, hreps⟩ := h
        subst hreps
        intro l hl
        simp only [List.mem_singleton] at hl
        subst hl
        obtain ⟨h1, h2, h3, h4, h5, h6, h7⟩ := hinv
        refine ⟨h1, h6, ?_⟩
        intro w hwdom hwnot hadj
        have hXnil : X = [] := by
          cases X with
          | nil => rfl
          | cons a t => simp at hX
        rcases h7 w hwdom hwnot hadj with hc | hc
        · simp at hc
        · rw [hXnil] at hc
          simp at hc
      · rw [if_neg hX] at h
        simp only [Option.some_inj, Prod.mk.injEq] at h
        obtain ⟨-, hreps⟩ := h
        subst hreps
        intro l hl
        simp at hl
    | cons p0 prest =>
      unfold BronKerbosch at h
      try simp only [] at h
      refine BKloop_sound G (BronKerbosch G cb fuel) dom Hsym Hirr ?_ R
        (pickPivot G p0 prest X) (p0 :: prest) [] X ret reps ?_ h
      · intro R' P' X' ret' reps' hi hh
        exact ih R' P' X' ret' reps' hi hh
      · exact BKInv_congr G dom R ([] ++ (p0 :: prest)) (p0 :: prest) X (by simp) hinv

/-- C3: confirmed.  Over a component whose adjacency relation is
symmetric and irreflexive on its node list (the shape guaranteed when
the graph is built with no-loop, no-parallel and dual all set), every
node array passed to the callback by
`component_iterate_maximal_cliques` is a maximal clique of the
component, and the recursion reports the current prefix R exactly when
both the candidate set P and the excluded set X are empty: with P empty
it invokes the callback iff X is also empty. -/
theorem C3_maximal_cliques (G : CliqueGraph V) [LinearOrder V] (cb : List V → Int)
    (compNodes : List V)
    (Hsym : ∀ u ∈ compNodes, ∀ w ∈ compNodes, adjb G u w = adjb G w u)
    (Hirr : ∀ u ∈ compNodes, adjb G u u = false) :
    (∀ ret reps, component_iterate_maximal_cliques G cb compNodes = some (ret, reps) →
       ∀ l ∈ reps, IsMaximalClique G compNodes l) ∧
    (∀ (fuel : Nat) (R : List V), BronKerbosch G cb (fuel + 1) R [] [] = some (cb R, [R])) ∧
    (∀ (fuel : Nat) (R X : List V), X ≠ [] →
       BronKerbosch G cb (fuel + 1) R [] X = some (0, [])) := by
  refine ⟨?_, ?_, ?_⟩
  · intro ret reps h
    refine BronKerbosch_sound G cb compNodes Hsym Hirr (compNodes.length + 2) []
      (List.insertionSort (fun a b => a ≤ b) compNodes) [] ret reps ?_ h
    refine ⟨List.nodup_nil, ?_, ?_, ?_, ?_, ?_, ?_⟩
    · intro w hw
      simp at hw
    · intro w hw
      exact (List.perm_insertionSort _ compNodes).mem_iff.mp hw
    · intro w hw
      simp at hw
    · intro w hw u hu
      simp at hu
    · intro u hu w hw hne
      simp at hu
    · intro w hwdom hwnot hadj
      exact Or.inl ((List.perm_insertionSort _ compNodes).mem_iff.mpr hwdom)
  · intro fuel R
    rfl
  · intro fuel R X hX
    cases X with
    | nil => exact absurd rfl hX
    | cons a t => rfl

/-- Witness for C3 at a concrete input: on the two-node one-edge
component, the enumerator reports exactly the node array `[0, 1]`, and
that array is a maximal clique of the component. -/
theorem C3_witness :
    component_iterate_maximal_cliques Gpair (fun _ => 0) [0, 1] = some (0, [[0, 1]]) ∧
    IsMaximalClique Gpair [0, 1] [0, 1] := by
  have hE : component_iterate_maximal_cliques Gpair (fun _ => 0) [0, 1] =
      some (0, [[0, 1]]) := by decide
  refine ⟨hE, ?_⟩
  exact (C3_maximal_cliques Gpair (fun _ => 0) [0, 1] (by decide) (by decide)).1
    0 [[0, 1]] hE [0, 1] (by simp)

end Rvutils
